import Mathlib

/-!
Verification of the addressing and abbreviation core of the serval-dna overlay
(`overlay_address.c` and the companion abbreviation file).

The C code is shallowly embedded: byte arrays become `List Nat`, the 16-way
nibble trie becomes a nested inductive, pointer-mutating functions become
state-passing functions returning the updated structure alongside their result.
Subscriber pointers become `Subscriber` values; pointer equality is modelled by
value equality (subscribers in the directory are unique per node ID).
-/

set_option autoImplicit false

namespace Serval

/-- `SID_SIZE` from the headers: node IDs are 32 bytes. -/
def SID_SIZE : Nat := 32

/-- `BROADCAST_LEN`: broadcast packet identifiers are 8 bytes. -/
def BROADCAST_LEN : Nat := 8

/-- `#define OA_CODE_SELF 0xff` (overlay_address.c). -/
def OA_CODE_SELF : Nat := 0xff

/-- `#define OA_CODE_PREVIOUS 0xfe` (overlay_address.c). -/
def OA_CODE_PREVIOUS : Nat := 0xfe

/-- Modelled from the spec: the `REACHABLE_*` bit flags live in
`overlay_address.h`, which is not part of the sources here.  The spec says
`reachable` is a bitset drawn from NONE, SELF, DIRECT, INDIRECT, UNICAST,
BROADCAST, ASSUMED, with UNICAST and BROADCAST implying DIRECT; we assign
distinct bits accordingly. -/
def REACHABLE_NONE : Nat := 0

/-- Modelled from the spec: the SELF reachability flag. -/
def REACHABLE_SELF : Nat := 1

/-- Modelled from the spec: the ASSUMED reachability flag. -/
def REACHABLE_ASSUMED : Nat := 2

/-- Modelled from the spec: the BROADCAST reachability flag. -/
def REACHABLE_BROADCAST : Nat := 4

/-- Modelled from the spec: the UNICAST reachability flag. -/
def REACHABLE_UNICAST : Nat := 8

/-- Modelled from the spec: the INDIRECT reachability flag. -/
def REACHABLE_INDIRECT : Nat := 16

/-- Modelled from the spec: DIRECT is the union of the UNICAST and BROADCAST
bits (UNICAST and BROADCAST imply DIRECT). -/
def REACHABLE_DIRECT : Nat := REACHABLE_BROADCAST ||| REACHABLE_UNICAST

/-- Modelled from the spec: the interface-state value for an interface that is
up (`INTERFACE_STATE_UP` is declared in a header not among the sources). -/
def INTERFACE_STATE_UP : Nat := 1

/-- `struct subscriber` (overlay_address.h / overlay_address.c).  Only the
fields the claims exercise are modelled: `sid`, `abbreviate_len`, `reachable`,
`next_hop`, `interface` (modelled by the interface's state value) and
`send_full`.  The struct is recursive through `next_hop`, hence an inductive.
A subscriber fresh from `malloc`+`memset 0` has all fields zero/none. -/
inductive Subscriber where
  | mk (sid : List Nat) (abbreviate_len : Nat) (reachable : Nat)
       (next_hop : Option Subscriber) (interface : Option Nat)
       (send_full : Bool)

mutual

/-- Decidable equality of subscribers (the derive handler does not support the
nesting through `Option`). -/
def Subscriber.decEq : (a b : Subscriber) → Decidable (a = b)
  | .mk s1 a1 r1 n1 i1 f1, .mk s2 a2 r2 n2 i2 f2 =>
    match Subscriber.decEqOpt n1 n2 with
    | isFalse h => isFalse (fun he => by cases he; exact h rfl)
    | isTrue hn =>
      if hs : s1 = s2 then
        if ha : a1 = a2 then
          if hr : r1 = r2 then
            if hi : i1 = i2 then
              if hf : f1 = f2 then
                isTrue (by rw [hs, ha, hr, hn, hi, hf])
              else isFalse (fun he => by cases he; exact hf rfl)
            else isFalse (fun he => by cases he; exact hi rfl)
          else isFalse (fun he => by cases he; exact hr rfl)
        else isFalse (fun he => by cases he; exact ha rfl)
      else isFalse (fun he => by cases he; exact hs rfl)

/-- Decidable equality of optional subscribers. -/
def Subscriber.decEqOpt : (a b : Option Subscriber) → Decidable (a = b)
  | none, none => isTrue rfl
  | none, some _ => isFalse (fun h => Option.noConfusion h)
  | some _, none => isFalse (fun h => Option.noConfusion h)
  | some x, some y =>
    match Subscriber.decEq x y with
    | isTrue h => isTrue (by rw [h])
    | isFalse h => isFalse (fun he => h (Option.some.inj he))

end

instance : DecidableEq Subscriber := Subscriber.decEq

/-- Field accessor for `sid`. -/
def Subscriber.sid : Subscriber → List Nat
  | .mk s _ _ _ _ _ => s

/-- Field accessor for `abbreviate_len`. -/
def Subscriber.abbreviate_len : Subscriber → Nat
  | .mk _ a _ _ _ _ => a

/-- Field accessor for `reachable`. -/
def Subscriber.reachable : Subscriber → Nat
  | .mk _ _ r _ _ _ => r

/-- Field accessor for `next_hop`. -/
def Subscriber.next_hop : Subscriber → Option Subscriber
  | .mk _ _ _ n _ _ => n

/-- Field accessor for `interface` (the interface's state, or none for NULL). -/
def Subscriber.interface : Subscriber → Option Nat
  | .mk _ _ _ _ i _ => i

/-- Field accessor for `send_full`. -/
def Subscriber.send_full : Subscriber → Bool
  | .mk _ _ _ _ _ f => f

/-- `ret->abbreviate_len = …`: functional update of the mutated field. -/
def Subscriber.withAbbreviateLen : Subscriber → Nat → Subscriber
  | .mk s _ r n i f, a => .mk s a r n i f

/-- `subscriber->send_full = …`: functional update of the mutated field. -/
def Subscriber.withSendFull : Subscriber → Bool → Subscriber
  | .mk s a r n i _, b => .mk s a r n i b

/-- One slot of a `struct tree_node` (overlay_address.c): the `is_tree` bit
flag together with the `tree_nodes`/`subscribers` union makes each of the 16
slots either empty (NULL subscriber), a subscriber leaf, or a child tree node.
A tree node is its list of 16 slots. -/
inductive Entry where
  | empty
  | leaf (s : Subscriber)
  | node (children : List Entry)

/-- A `struct tree_node` with all 16 slots empty (fresh from `memset 0`). -/
def emptyNode : List Entry := List.replicate 16 .empty

/-- `get_nibble(sid, pos)` (overlay_address.c): the high nibble of byte
`pos/2` for even `pos`, the low nibble for odd `pos`. -/
def get_nibble (sid : List Nat) (pos : Nat) : Nat :=
  let byte := sid.getD (pos / 2) 0
  let byte := if pos % 2 = 0 then byte / 16 else byte
  byte % 16

/-- The loop body of `find_subscriber` (overlay_address.c lines 73-114),
as a recursion over the remaining iteration budget.  The C loop is a do-while
that increments `pos` exactly once per iteration and re-enters while
`pos < len*2`, so from entry state `pos` the remaining number of iterations is
`len*2 - pos`, which is the `fuel` argument (callers guarantee `1 ≤ len`).
Returns the updated node (the C code mutates the trie in place) and the
returned subscriber pointer. -/
def findFrom (children : List Entry) (sid : List Nat) (len : Nat) (create : Bool) :
    Nat → Nat → List Entry × Option Subscriber
  | _pos, 0 => (children, none)
  | pos, fuel + 1 =>
    let nibble := get_nibble sid pos
    let pos' := pos + 1
    match children.getD nibble .empty with
    | .node sub =>
        if pos' < len * 2 then
          let r := findFrom sub sid len create pos' fuel
          (children.set nibble (.node r.1), r.2)
        else
          (children, none)
    | .empty =>
        if create then
          let ret : Subscriber := .mk (sid.take SID_SIZE) pos' 0 none none false
          (children.set nibble (.leaf ret), some ret)
        else
          (children, none)
    | .leaf ret =>
        if ret.sid.take len = sid.take len then
          (children, some ret)
        else if !create then
          (children, none)
        else
          let moved := ret.withAbbreviateLen (pos' + 1)
          let newNode := emptyNode.set (get_nibble ret.sid pos') (.leaf moved)
          if pos' < len * 2 then
            let r := findFrom newNode sid len create pos' fuel
            (children.set nibble (.node r.1), r.2)
          else
            (children.set nibble (.node newNode), none)

/-- `find_subscriber(sid, len, create)` (overlay_address.c): find a subscriber
from a whole or abbreviated subscriber id, descending the trie from the root.
`create` is forced to 0 unless `len == SID_SIZE`.  All callers in the sources
pass `1 ≤ len`. -/
def find_subscriber (root : List Entry) (sid : List Nat) (len : Nat) (create : Bool) :
    List Entry × Option Subscriber :=
  let create := if len ≠ SID_SIZE then false else create
  findFrom root sid len create 0 (len * 2)


/-! ## Concrete directory used by the split scenario (C1, C2) -/

/-- `A = 10 00 …` from the split scenario: 0x10, 0x00, then 30 zero bytes. -/
def A0 : List Nat := 0x10 :: 0x00 :: List.replicate 30 0

/-- `B = 10 01 …` from the split scenario: 0x10, 0x01, then 30 zero bytes. -/
def B0 : List Nat := 0x10 :: 0x01 :: List.replicate 30 0

/-- The insertion of `A0` into an empty directory. -/
def insertA0 : List Entry × Option Subscriber :=
  find_subscriber emptyNode A0 32 true

/-- The insertion of `B0` after `A0`. -/
def insertB0 : List Entry × Option Subscriber :=
  find_subscriber insertA0.1 B0 32 true

/-- The directory after inserting `A0` then `B0`. -/
def rootAB : List Entry := insertB0.1

/-! ## Lemmas about `find_subscriber` lookups -/

/-- Nibble values are always below 16. -/
theorem get_nibble_lt (sid : List Nat) (pos : Nat) : get_nibble sid pos < 16 := by
  unfold get_nibble
  exact Nat.mod_lt _ (by norm_num)

/-- Nibbles of a byte-level prefix agree with nibbles of the full id on the
covered range. -/
theorem get_nibble_take (sid : List Nat) (len pos : Nat) (h : pos < 2 * len) :
    get_nibble (sid.take len) pos = get_nibble sid pos := by
  unfold get_nibble
  have hb : (sid.take len).getD (pos / 2) 0 = sid.getD (pos / 2) 0 := by
    have hlt : pos / 2 < len := by omega
    simp [List.getD, List.getElem?_take, hlt]
  rw [hb]

/-- A successful lookup with `create = 0` can only return through the
`memcmp(ret->sid, sid, len) == 0` branch, so the result's node ID agrees with
the queried id on the compared `len` bytes. -/
theorem findFrom_sid_take (sid : List Nat) (len : Nat) :
    ∀ fuel ch pos s, (findFrom ch sid len false pos fuel).2 = some s →
      s.sid.take len = sid.take len := by
  intro fuel
  induction fuel with
  | zero => intro ch pos s h; simp [findFrom] at h
  | succ fuel ih =>
    intro ch pos s h
    rw [findFrom] at h
    cases hch : ch.getD (get_nibble sid pos) .empty with
    | node sub =>
      rw [hch] at h
      by_cases hp : pos + 1 < len * 2
      · simp only [if_pos hp] at h
        exact ih sub (pos + 1) s h
      · simp only [if_neg hp] at h
        simp at h
    | empty =>
      rw [hch] at h
      simp at h
    | leaf ret =>
      rw [hch] at h
      by_cases he : ret.sid.take len = sid.take len
      · simp only [if_pos he] at h
        simp at h
        rw [← h]; exact he
      · simp only [if_neg he] at h
        simp at h

/-- Core of the ambiguity property: if full-id lookups for two ids that differ
within their first 32 bytes both succeed from the same node, then the
descent path consists of tree nodes throughout the range of nibbles the two
ids share, so a lookup keyed by a byte prefix lying inside that shared range
runs out of nibbles inside tree nodes and falls off the loop, returning NULL
("abbreviation is not unique"). -/
theorem findFrom_shared_ambiguous (A B : List Nat) (len : Nat) (sA sB : Subscriber)
    (hAB : A.take 32 ≠ B.take 32) (hlen32 : len ≤ 32)
    (hshare : ∀ i, i < 2 * len → get_nibble A i = get_nibble B i) :
    ∀ k ch pos, pos + k = 2 * len →
      (findFrom ch A 32 false pos (64 - pos)).2 = some sA →
      (findFrom ch B 32 false pos (64 - pos)).2 = some sB →
      (findFrom ch (A.take len) len false pos k).2 = none := by
  intro k
  induction k with
  | zero => intro ch pos hpos hA hB; simp [findFrom]
  | succ k ih =>
    intro ch pos hpos hA hB
    have hposlt : pos < 2 * len := by omega
    have hnibA : get_nibble (A.take len) pos = get_nibble A pos :=
      get_nibble_take _ _ _ hposlt
    have hnibAB : get_nibble B pos = get_nibble A pos := (hshare pos hposlt).symm
    have hfuel : 64 - pos = (64 - (pos + 1)) + 1 := by omega
    rw [hfuel, findFrom] at hA hB
    rw [hnibAB] at hB
    rw [findFrom, hnibA]
    cases hch : ch.getD (get_nibble A pos) .empty with
    | empty =>
      rw [hch] at hA
      simp at hA
    | leaf ret =>
      rw [hch] at hA hB
      by_cases heA : ret.sid.take 32 = A.take 32
      · by_cases heB : ret.sid.take 32 = B.take 32
        · exact absurd (heA.symm.trans heB) hAB
        · simp only [if_neg heB] at hB
          simp at hB
      · simp only [if_neg heA] at hA
        simp at hA
    | node sub =>
      rw [hch] at hA hB
      by_cases h64 : pos + 1 < 32 * 2
      · simp only [if_pos h64] at hA hB
        by_cases hk : pos + 1 < len * 2
        · simp only [if_pos hk]
          exact ih sub (pos + 1) (by omega) hA hB
        · simp only [if_neg hk]
      · simp only [if_neg h64] at hA
        simp at hA

/-- C1 (amended): for two node IDs A ≠ B both present in the directory (their
full 32-byte lookups with create=false succeed), the lookups return the
respective subscribers (IDs agreeing with A resp. B), and for every byte count
len with 1 ≤ len ≤ 32 such that A and B share their first 2·len nibbles (the
whole nibble range covered by the len-byte prefix), `find_subscriber` on the
first len bytes of A with create=false returns none (ambiguous).  The original
claim asserted this for every number L of shared nibbles with len = ⌈L/2⌉;
that fails for odd L, where the extra covered nibble can disambiguate (see the
counterexample). -/
theorem claim1_amended (root : List Entry) (A B : List Nat) (len : Nat)
    (sA sB : Subscriber)
    (hA : (find_subscriber root A 32 false).2 = some sA)
    (hB : (find_subscriber root B 32 false).2 = some sB)
    (hAB : A.take 32 ≠ B.take 32)
    (hlen1 : 1 ≤ len) (hlen32 : len ≤ 32)
    (hshare : ∀ i, i < 2 * len → get_nibble A i = get_nibble B i) :
    sA.sid.take 32 = A.take 32 ∧ sB.sid.take 32 = B.take 32 ∧
    (find_subscriber root (A.take len) len false).2 = none := by
  rw [find_subscriber] at hA hB
  simp only [SID_SIZE] at hA hB
  norm_num at hA hB
  refine ⟨findFrom_sid_take A 32 64 root 0 sA hA, findFrom_sid_take B 32 64 root 0 sB hB, ?_⟩
  rw [find_subscriber]
  have hc : (if len ≠ SID_SIZE then false else false) = false := by
    by_cases h : len = SID_SIZE <;> simp [h]
  rw [hc]
  have hm : len * 2 = 2 * len := Nat.mul_comm len 2
  rw [hm]
  exact findFrom_shared_ambiguous A B len sA sB hAB hlen32 hshare (2 * len) root 0
    (by omega) hA hB

/-- C1 counterexample: with `A0 = 10 00 …` and `B0 = 10 01 …` inserted, A0 and
B0 are distinct and share their first L = 3 nibbles, yet the lookup of the
first ⌈3/2⌉ = 2 bytes of A0 with create=false does NOT return none — it
resolves (to A0's subscriber), contradicting the claim as stated. -/
theorem claim1_counterexample :
    A0.take 32 ≠ B0.take 32 ∧
    (find_subscriber rootAB A0 32 false).2.isSome = true ∧
    (find_subscriber rootAB B0 32 false).2.isSome = true ∧
    (∀ i, i < 3 → get_nibble A0 i = get_nibble B0 i) ∧
    ¬ (find_subscriber rootAB (A0.take 2) 2 false).2 = none := by
  decide

/-- C1 witness: the amended theorem applied at the concrete two-subscriber
directory with len = 1 (L = 2 shared nibbles). -/
theorem claim1_witness :
    (Subscriber.mk A0 4 0 none none false).sid.take 32 = A0.take 32 ∧
    (Subscriber.mk B0 4 0 none none false).sid.take 32 = B0.take 32 ∧
    (find_subscriber rootAB (A0.take 1) 1 false).2 = none :=
  claim1_amended rootAB A0 B0 1 _ _ (by decide) (by decide) (by decide)
    (by decide) (by decide) (by decide)

/-- C2: inserting `A0 = 10 00 …` then `B0 = 10 01 …` into an empty directory
succeeds for both; afterwards both stored subscribers have
`abbreviate_len = 4` (the splits re-placed A0's leaf at depth 4), the one-byte
lookup `[0x10]` is ambiguous (none), and the two-byte lookup `[0x10, 0x00]`
returns A0's subscriber. -/
theorem claim2_split_scenario :
    insertA0.2.isSome = true ∧
    insertB0.2.isSome = true ∧
    (find_subscriber rootAB A0 32 false).2 = some (.mk A0 4 0 none none false) ∧
    (find_subscriber rootAB B0 32 false).2 = some (.mk B0 4 0 none none false) ∧
    (find_subscriber rootAB [0x10] 1 false).2 = none ∧
    (find_subscriber rootAB [0x10, 0x00] 2 false).2 = some (.mk A0 4 0 none none false) := by
  decide


/-! ## Decode context and the address codec -/

/-- Modelled from the spec: a size-limited `struct overlay_buffer` as produced
by `ob_new` followed by `ob_limitsize(limit)` (the buffer primitives live
outside the given sources; the spec lists `append_byte`/`append_bytes`/
`limit_size` and says appends stop when the payload is full). -/
structure OBuf where
  sizeLimit : Nat
  bytes : List Nat
  deriving DecidableEq

/-- Modelled from the spec: `ob_append_bytes(b, bytes, count)` appends when
the bytes fit within the size limit and otherwise fails leaving the buffer
unchanged.  The Bool is the success flag (the C function returns 0 on
success, non-zero on failure). -/
def ob_append_bytes (b : OBuf) (xs : List Nat) : OBuf × Bool :=
  if b.bytes.length + xs.length ≤ b.sizeLimit then
    ({ b with bytes := b.bytes ++ xs }, true)
  else (b, false)

/-- Modelled from the spec: `ob_append_byte(b, byte)` (one-byte append). -/
def ob_append_byte (b : OBuf) (x : Nat) : OBuf × Bool := ob_append_bytes b [x]

/-- Modelled from the spec: MDP_MTU, the MDP frame MTU used as the
please-explain payload limit in `find_subscr_buffer` (the constant lives in a
header not under src/; 2000 bytes in the shipped tree — the theorems below
depend only on the limit being finite). -/
def MDP_MTU : Nat := 2000

/-- `struct decode_context` (declared in a header; fields as used by
overlay_address.c): per-frame codec state.  `please_explain` is the
please-explain frame under construction, modelled by its size-limited
payload buffer (`none` = no frame allocated yet).  The `interface`/`addr`
fields only feed `send_please_explain`'s transmission path (network, out of
scope). -/
structure DecodeContext where
  sender : Option Subscriber
  previous : Option Subscriber
  invalid_addresses : Bool
  please_explain : Option OBuf
  deriving DecidableEq

/-- The shared allocate-if-needed idiom of `add_explain_response` and
`find_subscr_buffer`: `if (!context->please_explain) { calloc; ob_new;
ob_limitsize(limit); }` (overlay_address.c lines 357-361 and 401-405). -/
def allocExplain (limit : Nat) (context : DecodeContext) : DecodeContext :=
  if context.please_explain.isNone then
    { context with please_explain := some ⟨limit, []⟩ }
  else context

/-- `overlay_address_append(context, b, subscriber)` (overlay_address.c lines
321-353): append an appropriate abbreviation of the subscriber's address.
Buffer appends are modelled as list appends (the claims do not exercise the
buffer-full failure paths, on which the function would return -1).  The C
code mutates `subscriber->send_full` and `context->previous` in place; the
updated subscriber and context are returned alongside the buffer. -/
def overlay_address_append (context : Option DecodeContext) (b : List Nat)
    (subscriber : Subscriber) : Option DecodeContext × List Nat × Subscriber :=
  let isSender : Bool :=
    match context with
    | some ctx => decide (ctx.sender = some subscriber)
    | none => false
  let isPrevious : Bool :=
    match context with
    | some ctx => decide (ctx.previous = some subscriber)
    | none => false
  if isSender then
    (context.map fun ctx => { ctx with previous := some subscriber },
     b ++ [OA_CODE_SELF], subscriber)
  else if isPrevious then
    (context.map fun ctx => { ctx with previous := some subscriber },
     b ++ [OA_CODE_PREVIOUS], subscriber)
  else
    let ls :=
      if subscriber.send_full then
        (SID_SIZE, subscriber.withSendFull false)
      else
        let len := (subscriber.abbreviate_len + 2) / 2
        let len := if subscriber.reachable = REACHABLE_SELF then len + 1 else len
        let len := if len > SID_SIZE then SID_SIZE else len
        (len, subscriber)
    (context.map fun ctx => { ctx with previous := some ls.2 },
     b ++ ls.1 :: ls.2.sid.take ls.1, ls.2)

/-- `withSendFull` does not change the node ID. -/
@[simp] theorem Subscriber.sid_withSendFull (s : Subscriber) (b : Bool) :
    (s.withSendFull b).sid = s.sid := by
  cases s; rfl

/-- `withSendFull` sets the flag. -/
@[simp] theorem Subscriber.send_full_withSendFull (s : Subscriber) (b : Bool) :
    (s.withSendFull b).send_full = b := by
  cases s; rfl

/-- The clamp `if (len > SID_SIZE) len = SID_SIZE` is a `min`. -/
theorem clamp_eq_min (n : Nat) : (if n > SID_SIZE then SID_SIZE else n) = min n SID_SIZE := by
  rw [Nat.min_def]
  split <;> split <;> omega


/-- In every branch of `overlay_address_append` with a non-NULL context, the
context's `previous` is set to the (possibly send_full-cleared) subscriber
that was emitted. -/
theorem overlay_address_append_sets_previous (ctx : DecodeContext) (b : List Nat)
    (s : Subscriber) :
    (overlay_address_append (some ctx) b s).1 =
      some { ctx with previous := some (overlay_address_append (some ctx) b s).2.2 } := by
  by_cases h1 : ctx.sender = some s
  · simp [overlay_address_append, h1]
  · by_cases h2 : ctx.previous = some s
    · simp [overlay_address_append, h1, h2]
    · simp [overlay_address_append, h1, h2]

/-- C3 (amended): for a subscriber that is neither `ctx.sender` nor
`ctx.previous`, `overlay_address_append` emits a length byte L followed by the
first L bytes of the node ID, where L = 32 when `send_full` is set (and the
returned subscriber has the flag cleared), and otherwise
L = (abbreviate_len + 2) / 2 in C integer division (i.e. ⌈(abbreviate_len+1)/2⌉,
not ⌈(abbreviate_len+2)/2⌉ as claimed — see the counterexample), incremented
by one if `reachable == REACHABLE_SELF` and clamped to at most 32; afterwards
`ctx.previous` is the emitted subscriber. -/
theorem claim3_amended (ctx : DecodeContext) (b : List Nat) (s : Subscriber)
    (hsend : some s ≠ ctx.sender) (hprev : some s ≠ ctx.previous) :
    (overlay_address_append (some ctx) b s).2.1 =
      b ++ (if s.send_full then SID_SIZE
            else min ((s.abbreviate_len + 2) / 2 +
              (if s.reachable = REACHABLE_SELF then 1 else 0)) SID_SIZE) ::
        s.sid.take (if s.send_full then SID_SIZE
            else min ((s.abbreviate_len + 2) / 2 +
              (if s.reachable = REACHABLE_SELF then 1 else 0)) SID_SIZE) ∧
    (overlay_address_append (some ctx) b s).2.2 =
      (if s.send_full then s.withSendFull false else s) ∧
    (overlay_address_append (some ctx) b s).1 =
      some { ctx with previous := some (overlay_address_append (some ctx) b s).2.2 } := by
  have h1 : decide (ctx.sender = some s) = false := by
    simp only [decide_eq_false_iff_not]
    exact fun h => hsend h.symm
  have h2 : decide (ctx.previous = some s) = false := by
    simp only [decide_eq_false_iff_not]
    exact fun h => hprev h.symm
  unfold overlay_address_append
  simp only [h1, h2, Bool.false_eq_true, if_false, Option.map_some]
  cases hsf : s.send_full with
  | true => simp
  | false =>
    by_cases hrs : s.reachable = REACHABLE_SELF <;>
      simp [hrs, clamp_eq_min]

/-- A decode context with no sender and no previous (fresh from `bzero`). -/
def ctxEmpty : DecodeContext := ⟨none, none, false, none⟩

/-- A subscriber with the odd abbreviation depth 1 (e.g. the first and only
subscriber inserted into an empty directory has `abbreviate_len = 1`). -/
def sOdd : Subscriber := .mk (0x10 :: 0x11 :: List.replicate 30 0) 1 0 none none false

/-- C3 counterexample: for `abbreviate_len = 1` the code computes
`len = (1+2)/2 = 1` in C integer division and emits a 1-byte prefix, while the
claim's L = ⌈(1+2)/2⌉ = 2 would require the bytes `[2, sid0, sid1]`. -/
theorem claim3_counterexample :
    sOdd.abbreviate_len = 1 ∧
    (1 + 2 + 1) / 2 = 2 ∧
    (overlay_address_append (some ctxEmpty) [] sOdd).2.1 = [1, 0x10] ∧
    (overlay_address_append (some ctxEmpty) [] sOdd).2.1 ≠ 2 :: sOdd.sid.take 2 := by
  decide

/-- C3 witness: the amended theorem applied at the concrete empty context and
the `abbreviate_len = 1` subscriber. -/
theorem claim3_witness :
    (overlay_address_append (some ctxEmpty) [] sOdd).2.1 =
      [] ++ (if sOdd.send_full then SID_SIZE
            else min ((sOdd.abbreviate_len + 2) / 2 +
              (if sOdd.reachable = REACHABLE_SELF then 1 else 0)) SID_SIZE) ::
        sOdd.sid.take (if sOdd.send_full then SID_SIZE
            else min ((sOdd.abbreviate_len + 2) / 2 +
              (if sOdd.reachable = REACHABLE_SELF then 1 else 0)) SID_SIZE) ∧
    (overlay_address_append (some ctxEmpty) [] sOdd).2.2 =
      (if sOdd.send_full then sOdd.withSendFull false else sOdd) ∧
    (overlay_address_append (some ctxEmpty) [] sOdd).1 =
      some { ctxEmpty with previous := some (overlay_address_append (some ctxEmpty) [] sOdd).2.2 } :=
  claim3_amended ctxEmpty [] sOdd (by decide) (by decide)

/-! ## The SELF/PREVIOUS encoding scenario (C4) -/

/-- The sender subscriber S of the codec scenario. -/
def S0 : Subscriber := .mk (0x20 :: List.replicate 31 1) 1 0 none none false

/-- The third subscriber T of the codec scenario (`abbreviate_len = 4`, so its
emitted prefix length is (4+2)/2 = 3). -/
def T0 : Subscriber := .mk (0x30 :: 0x31 :: 0x32 :: List.replicate 29 0) 4 0 none none false

/-- A decode context whose sender is S0. -/
def ctxS : DecodeContext := ⟨some S0, none, false, none⟩

/-- First encode of the (S, S, T) sequence. -/
def encodeSST1 : Option DecodeContext × List Nat × Subscriber :=
  overlay_address_append (some ctxS) [] S0

/-- Second encode of the (S, S, T) sequence. -/
def encodeSST2 : Option DecodeContext × List Nat × Subscriber :=
  overlay_address_append encodeSST1.1 encodeSST1.2.1 S0

/-- Third encode of the (S, S, T) sequence. -/
def encodeSST3 : Option DecodeContext × List Nat × Subscriber :=
  overlay_address_append encodeSST2.1 encodeSST2.2.1 T0

/-- C4 (amended): after encoding a subscriber that is not `ctx.sender`, an
immediately following encode of the same (returned) subscriber under the
updated context emits the single byte 0xFE (OA_CODE_PREVIOUS); a subscriber
equal to `ctx.sender` instead re-emits 0xFF every time, because the sender
check precedes the previous check, so with `ctx.sender = S` the sequence
(S, S, T) encodes to FF FF <len> <prefix-of-T> (not FF FE …, see the
counterexample). -/
theorem claim4_amended (ctx : DecodeContext) (b b2 : List Nat) (s : Subscriber)
    (hs : some s ≠ ctx.sender)
    (hs' : some (overlay_address_append (some ctx) b s).2.2 ≠ ctx.sender) :
    (overlay_address_append ((overlay_address_append (some ctx) b s).1) b2
        ((overlay_address_append (some ctx) b s).2.2)).2.1 = b2 ++ [OA_CODE_PREVIOUS] ∧
    encodeSST3.2.1 = [OA_CODE_SELF, OA_CODE_SELF, 3, 0x30, 0x31, 0x32] := by
  constructor
  · have hset := overlay_address_append_sets_previous ctx b s
    generalize hsp : (overlay_address_append (some ctx) b s).2.2 = s' at hset hs' ⊢
    rw [hset]
    have hns : ¬ (ctx.sender = some s') := fun h => hs' h.symm
    simp [overlay_address_append, hns]
  · decide

/-- C4 counterexample: encoding (S, S, T) with `ctx.sender = S` yields
FF FF 03 <prefix-of-T>; the second byte is 0xFF (the sender check wins), not
0xFE as the claim states. -/
theorem claim4_counterexample :
    encodeSST3.2.1 ≠ [0xFF, 0xFE, 3] ++ T0.sid.take 3 ∧
    encodeSST3.2.1.getD 1 0 = OA_CODE_SELF := by
  decide

/-- C4 witness: the amended theorem applied with the fresh context `ctxS` and
the non-sender subscriber T0. -/
theorem claim4_witness :
    (overlay_address_append ((overlay_address_append (some ctxS) [] T0).1) []
        ((overlay_address_append (some ctxS) [] T0).2.2)).2.1 = [] ++ [OA_CODE_PREVIOUS] ∧
    encodeSST3.2.1 = [OA_CODE_SELF, OA_CODE_SELF, 3, 0x30, 0x31, 0x32] :=
  claim4_amended ctxS [] [] T0 (by decide) (by decide)


/-! ## Reachability resolution (C5) -/

/-- `subscriber_is_reachable(subscriber)` (overlay_address.c lines 161-192)
for a non-NULL subscriber.  The C function also accepts NULL and returns
REACHABLE_NONE (see `subscriber_is_reachable_opt`); its recursive call is
reached only after the `!subscriber->next_hop` NULL check, so the recursion is
modelled directly on the non-null next hop. -/
def subscriber_is_reachable : Subscriber → Nat
  | .mk _ _ reach nh itf _ =>
    let ret := reach
    let ret :=
      if ret = REACHABLE_INDIRECT then
        match nh with
        | none => REACHABLE_NONE
        | some hop =>
          if hop.reachable &&& REACHABLE_DIRECT = 0 then REACHABLE_NONE
          else
            let r := subscriber_is_reachable hop
            if r &&& REACHABLE_ASSUMED ≠ 0 then REACHABLE_NONE
            else if r &&& REACHABLE_DIRECT = 0 then REACHABLE_NONE
            else ret
      else ret
    if ret &&& REACHABLE_DIRECT ≠ 0 then
      match itf with
      | none => REACHABLE_NONE
      | some st => if st ≠ INTERFACE_STATE_UP then REACHABLE_NONE else ret
    else ret

/-- The NULL-pointer guard of `subscriber_is_reachable`. -/
def subscriber_is_reachable_opt : Option Subscriber → Nat
  | none => REACHABLE_NONE
  | some s => subscriber_is_reachable s

/-- The node C of the reachability scenario: DIRECT|UNICAST with an UP
interface. -/
def subC5C : Subscriber :=
  .mk (0x50 :: List.replicate 31 0) 1 (REACHABLE_DIRECT ||| REACHABLE_UNICAST)
    none (some INTERFACE_STATE_UP) false

/-- The node B of the reachability scenario, first state: INDIRECT via C. -/
def subC5Bind : Subscriber :=
  .mk (0x51 :: List.replicate 31 0) 1 REACHABLE_INDIRECT (some subC5C) none false

/-- The node A of the reachability scenario, first state: INDIRECT via the
INDIRECT B. -/
def subC5A1 : Subscriber :=
  .mk (0x52 :: List.replicate 31 0) 1 REACHABLE_INDIRECT (some subC5Bind) none false

/-- The node B of the reachability scenario, second state: DIRECT|UNICAST
with a valid UP interface. -/
def subC5Bdir : Subscriber :=
  .mk (0x51 :: List.replicate 31 0) 1 (REACHABLE_DIRECT ||| REACHABLE_UNICAST)
    (some subC5C) (some INTERFACE_STATE_UP) false

/-- The node A of the reachability scenario, second state: INDIRECT via the
now-direct B. -/
def subC5A2 : Subscriber :=
  .mk (0x52 :: List.replicate 31 0) 1 REACHABLE_INDIRECT (some subC5Bdir) none false

/-- C5 (amended): `subscriber_is_reachable` on a subscriber whose stored
`reachable` is exactly REACHABLE_INDIRECT (the code tests
`ret == REACHABLE_INDIRECT`, not a bit test — see the counterexample) returns
NONE unless the next hop is non-null, its stored reachable includes DIRECT,
and the recursive resolution includes DIRECT and excludes ASSUMED;
consequently in the two-hop scenario A→B→C with B INDIRECT the resolution of
A is NONE, and after changing B to DIRECT|UNICAST with a valid UP interface it
is INDIRECT. -/
theorem claim5_amended (s : Subscriber)
    (hind : s.reachable = REACHABLE_INDIRECT)
    (hfail : s.next_hop = none ∨
      ∃ nh, s.next_hop = some nh ∧
        (nh.reachable &&& REACHABLE_DIRECT = 0 ∨
         subscriber_is_reachable nh &&& REACHABLE_ASSUMED ≠ 0 ∨
         subscriber_is_reachable nh &&& REACHABLE_DIRECT = 0)) :
    subscriber_is_reachable s = REACHABLE_NONE ∧
    subscriber_is_reachable subC5A1 = REACHABLE_NONE ∧
    subscriber_is_reachable subC5A2 = REACHABLE_INDIRECT := by
  refine ⟨?_, by decide, by decide⟩
  cases s with
  | mk sid abbr reach nh itf sf =>
    simp only [Subscriber.reachable] at hind
    simp only [Subscriber.next_hop] at hfail
    subst hind
    rcases hfail with hnone | ⟨nh', hsome, hbad⟩
    · subst hnone
      simp [subscriber_is_reachable, REACHABLE_NONE]
    · subst hsome
      rcases hbad with hb | hb | hb <;>
        simp [subscriber_is_reachable, hb, REACHABLE_NONE]

/-- C5 counterexample: a subscriber whose stored reachable is
INDIRECT|SELF (it includes the INDIRECT bit) with a NULL next hop; the claim
says resolution must return NONE, but the code's equality test
`ret == REACHABLE_INDIRECT` fails and the stored value is returned
unchanged. -/
theorem claim5_counterexample :
    ((Subscriber.mk (0x40 :: List.replicate 31 0) 1
        (REACHABLE_INDIRECT ||| REACHABLE_SELF) none none false).reachable &&&
      REACHABLE_INDIRECT ≠ 0) ∧
    (Subscriber.mk (0x40 :: List.replicate 31 0) 1
        (REACHABLE_INDIRECT ||| REACHABLE_SELF) none none false).next_hop = none ∧
    subscriber_is_reachable
        (.mk (0x40 :: List.replicate 31 0) 1
          (REACHABLE_INDIRECT ||| REACHABLE_SELF) none none false) ≠
      REACHABLE_NONE := by
  decide

/-- C5 witness: the amended theorem applied to the concrete INDIRECT
subscriber A of the scenario (whose next hop B is INDIRECT, hence has no
DIRECT bit). -/
theorem claim5_witness :
    subscriber_is_reachable subC5A1 = REACHABLE_NONE ∧
    subscriber_is_reachable subC5A1 = REACHABLE_NONE ∧
    subscriber_is_reachable subC5A2 = REACHABLE_INDIRECT :=
  claim5_amended subC5A1 (by decide)
    (Or.inr ⟨subC5Bind, by decide, Or.inl (by decide)⟩)


/-! ## Broadcast duplicate suppression (C7) -/

/-- `#define BPI_MASK 0x3ff` (overlay_address.c). -/
def BPI_MASK : Nat := 0x3ff

/-- `#define MAX_BPIS 1024` (overlay_address.c). -/
def MAX_BPIS : Nat := 1024

/-- The hash loop of `overlay_broadcast_drop_check` (overlay_address.c lines
294-301): over the 8 BPI bytes,
`bpi_index = ((bpi_index<<3)&0xfff8)+((bpi_index>>13)&0x7)` then
`bpi_index ^= addr->id[i]`, and finally `bpi_index &= BPI_MASK`. -/
def bpi_index (id : List Nat) : Nat :=
  ((List.range BROADCAST_LEN).foldl
    (fun h i => (((h <<< 3) &&& 0xfff8) + ((h >>> 13) &&& 0x7)) ^^^ id.getD i 0) 0) &&&
    BPI_MASK

/-- The hash as the spec and the claim word it, with the two shifted
components combined by bitwise OR instead of the code's `+`
(for comparison with `bpi_index`; the two agree because the components have
disjoint bits). -/
def bpi_index_claim (id : List Nat) : Nat :=
  ((List.range BROADCAST_LEN).foldl
    (fun h i => (((h <<< 3) &&& 0xfff8) ||| ((h >>> 13) &&& 0x7)) ^^^ id.getD i 0) 0) &&&
    BPI_MASK

/-- Disjoint bits add like they OR. -/
theorem add_eq_or_of_and_eq_zero : ∀ a b : Nat, a &&& b = 0 → a + b = a ||| b := by
  intro a
  induction a using Nat.binaryRec with
  | z => intro b _; simp
  | f c a' ih =>
    intro b hab
    rw [← Nat.bit_decomp b] at hab ⊢
    rw [Nat.land_bit] at hab
    rw [Nat.lor_bit]
    obtain ⟨h1, h2⟩ := Nat.bit_eq_zero_iff.mp hab
    have hsum := ih _ h1
    rw [Nat.bit_val, Nat.bit_val, Nat.bit_val]
    cases c with
    | false =>
      cases hb : Nat.bodd b <;>
        simp only [Bool.false_or, Bool.or_false, Bool.true_or, Bool.or_true,
          Bool.toNat_false, Bool.toNat_true, Bool.cond_false, Bool.cond_true] <;>
        omega
    | true =>
      have hbb : Nat.bodd b = false := by
        cases hbb : Nat.bodd b
        · rfl
        · rw [hbb] at h2; simp at h2
      rw [hbb]
      simp only [Bool.false_or, Bool.or_false, Bool.true_or, Bool.or_true,
        Bool.toNat_false, Bool.toNat_true]
      omega

/-- The two components of the BPI hash step occupy disjoint bits:
`(h<<3)&0xfff8` lives in bits 3..15 and `(h>>13)&0x7` in bits 0..2. -/
theorem bpi_step_and_eq_zero (h : Nat) :
    ((h <<< 3) &&& 0xfff8) &&& ((h >>> 13) &&& 0x7) = 0 := by
  apply Nat.eq_of_testBit_eq
  intro i
  simp only [Nat.testBit_and, Nat.zero_testBit, Bool.and_eq_false_iff]
  by_cases hi : i < 3
  · have h8 : Nat.testBit 0xfff8 i = false := by interval_cases i <;> decide
    left
    simp [h8]
  · have h7 : Nat.testBit 0x7 i = false :=
      Nat.testBit_lt_two_pow
        (by calc (7 : Nat) < 2 ^ 3 := by norm_num
              _ ≤ 2 ^ i := Nat.pow_le_pow_right (by norm_num) (by omega))
    right
    simp [h7]

/-- The code's `+`-combined hash and the claim's `|`-combined hash agree. -/
theorem bpi_index_eq_claim (id : List Nat) : bpi_index id = bpi_index_claim id := by
  unfold bpi_index bpi_index_claim
  have hf : (fun (h : Nat) (i : Nat) =>
      (((h <<< 3) &&& 0xfff8) + ((h >>> 13) &&& 0x7)) ^^^ id.getD i 0) =
      fun (h : Nat) (i : Nat) =>
      (((h <<< 3) &&& 0xfff8) ||| ((h >>> 13) &&& 0x7)) ^^^ id.getD i 0 := by
    funext h i
    rw [add_eq_or_of_and_eq_zero _ _ (bpi_step_and_eq_zero h)]
  rw [hf]

/-- `static struct broadcast bpilist[MAX_BPIS]` in its zero-initialised
start-up state: 1024 slots of 8 zero bytes. -/
def bpilistFresh : List (List Nat) := List.replicate MAX_BPIS (List.replicate BROADCAST_LEN 0)

/-- `overlay_broadcast_drop_check(addr)` (overlay_address.c lines 287-313):
hash the BPI; if the slot already holds these 8 bytes report a duplicate
(drop, return 1), else store the BPI in the slot and return 0.  The table is
passed and returned explicitly in place of the static `bpilist`. -/
def overlay_broadcast_drop_check (bpilist : List (List Nat)) (id : List Nat) :
    List (List Nat) × Bool :=
  let i := bpi_index id
  if (bpilist.getD i []).take BROADCAST_LEN = id.take BROADCAST_LEN then
    (bpilist, true)
  else
    (bpilist.set i (id.take BROADCAST_LEN), false)

/-- The slot index is at most 10 bits, hence within the 1024-entry table. -/
theorem bpi_index_lt (id : List Nat) : bpi_index id < MAX_BPIS := by
  unfold bpi_index MAX_BPIS BPI_MASK
  have := Nat.and_le_right (n := (List.range BROADCAST_LEN).foldl
    (fun h i => (((h <<< 3) &&& 0xfff8) + ((h >>> 13) &&& 0x7)) ^^^ id.getD i 0) 0) (m := 0x3ff)
  omega

/-- C7 (amended): the slot index is the claimed rolling hash (the code's `+`
in the mixing step equals the claimed `|` because the two components have
disjoint bits) masked to 10 bits, and for every 8-byte BPI other than eight
zero bytes, the first `drop_check` from the fresh zero-initialised table
returns false and overwrites the indexed slot with the BPI, and the immediate
repeat returns true.  The all-zero BPI must be excluded: it compares equal to
its zero-initialised slot already on the first call (see the
counterexample). -/
theorem claim7_amended (id : List Nat) (hlen : id.length = BROADCAST_LEN)
    (hnz : id ≠ List.replicate BROADCAST_LEN 0) :
    bpi_index id = bpi_index_claim id ∧
    bpi_index id < MAX_BPIS ∧
    (overlay_broadcast_drop_check bpilistFresh id).2 = false ∧
    (overlay_broadcast_drop_check bpilistFresh id).1.getD (bpi_index id) [] = id ∧
    (overlay_broadcast_drop_check (overlay_broadcast_drop_check bpilistFresh id).1 id).2 =
      true := by
  have hia : bpi_index id < MAX_BPIS := bpi_index_lt id
  have hlenF : bpi_index id < bpilistFresh.length := by
    unfold bpilistFresh
    rw [List.length_replicate]
    exact hia
  have htid : id.take BROADCAST_LEN = id := by
    rw [← hlen]
    exact List.take_length id
  have hfresh : (bpilistFresh.getD (bpi_index id) []) = List.replicate BROADCAST_LEN 0 := by
    rw [List.getD_eq_getElem?_getD]
    unfold bpilistFresh
    rw [List.getElem?_replicate_of_lt hia]
    rfl
  have hne : ¬ ((bpilistFresh.getD (bpi_index id) []).take BROADCAST_LEN =
      id.take BROADCAST_LEN) := by
    rw [hfresh, htid]
    intro h
    apply hnz
    rw [← h]
    simp [List.take_replicate]
  refine ⟨bpi_index_eq_claim id, hia, ?_, ?_, ?_⟩
  · unfold overlay_broadcast_drop_check
    simp only [if_neg hne]
  · unfold overlay_broadcast_drop_check
    simp only [if_neg hne]
    rw [List.getD_eq_getElem?_getD, List.getElem?_set_self hlenF]
    simp [htid]
  · unfold overlay_broadcast_drop_check
    simp only [if_neg hne]
    rw [List.getD_eq_getElem?_getD, List.getElem?_set_self hlenF]
    simp [List.take_take]

/-- C7 counterexample: the all-zero BPI hashes to slot 0, whose
zero-initialised contents already equal the BPI, so the very first
`drop_check` on a fresh table returns true (drop), not false as claimed. -/
theorem claim7_counterexample :
    (overlay_broadcast_drop_check bpilistFresh (List.replicate BROADCAST_LEN 0)).2 = true := by
  decide

/-- C7 witness: the amended theorem applied at the concrete BPI
`00 01 02 03 04 05 06 07` of the broadcast-suppression scenario. -/
theorem claim7_witness :
    bpi_index [0, 1, 2, 3, 4, 5, 6, 7] = bpi_index_claim [0, 1, 2, 3, 4, 5, 6, 7] ∧
    bpi_index [0, 1, 2, 3, 4, 5, 6, 7] < MAX_BPIS ∧
    (overlay_broadcast_drop_check bpilistFresh [0, 1, 2, 3, 4, 5, 6, 7]).2 = false ∧
    (overlay_broadcast_drop_check bpilistFresh [0, 1, 2, 3, 4, 5, 6, 7]).1.getD
      (bpi_index [0, 1, 2, 3, 4, 5, 6, 7]) [] = [0, 1, 2, 3, 4, 5, 6, 7] ∧
    (overlay_broadcast_drop_check
      (overlay_broadcast_drop_check bpilistFresh [0, 1, 2, 3, 4, 5, 6, 7]).1
      [0, 1, 2, 3, 4, 5, 6, 7]).2 = true :=
  claim7_amended [0, 1, 2, 3, 4, 5, 6, 7] (by decide) (by decide)


/-! ## Tree walking and the please-explain machinery (C6, C8) -/

/-!
The walk is split along the type structure: `walk_entry` handles one slot,
`walk_slots` the `for (; i < e; i++)` loop over a node's slot list, and
`walk_tree` is the entry point that computes the slot range of a node.  This
mirrors overlay_address.c lines 125-151; the recursion is structural on the
trie so that concrete walks compute.
-/

mutual

/-- One slot of the walk: an empty slot is ignored, a subscriber leaf is fed
to the callback (whose result, the possibly-mutated subscriber, replaces the
leaf), and a child node is walked recursively at depth `pos + 1`, computing
its slot range from `start`/`end` exactly as `walk_tree` does.  `pos` is the
nibble depth of the node containing the slot.  The callback type
`Subscriber → σ → Subscriber × σ × Bool` carries the C callback's mutation of
the subscriber, its context mutation, and its non-zero "stop" verdict. -/
def walk_entry {σ : Type} (cb : Subscriber → σ → Subscriber × σ × Bool) :
    Entry → Nat → Option (List Nat × Nat) → Option (List Nat × Nat) → σ →
      Entry × σ × Bool
  | .empty, _pos, _start, _endp, st => (.empty, st, false)
  | .leaf s, _pos, _start, _endp, st =>
      let r := cb s st
      (.leaf r.1, r.2.1, r.2.2)
  | .node sub, pos, start, endp, st =>
      let i0 := match start with
        | some se => if pos + 1 < se.2 * 2 then get_nibble se.1 (pos + 1) else 0
        | none => 0
      let e := match endp with
        | some ee => if pos + 1 < ee.2 * 2 then get_nibble ee.1 (pos + 1) + 1 else 16
        | none => 16
      let r := walk_slots cb sub 0 i0 e (pos + 1) start endp st
      (.node r.1, r.2)

/-- The `for (; i < e; i++)` loop of `walk_tree` over a node's slot list.
`idx` is the index of the head slot; only slots with `i0 ≤ idx < e` are
visited.  The `start` bound is handed only to the first visited slot
(`idx = i0`), matching `start = NULL` at the end of every C loop iteration;
on a non-zero callback result the walk stops and the remaining slots are
returned unchanged. -/
def walk_slots {σ : Type} (cb : Subscriber → σ → Subscriber × σ × Bool) :
    List Entry → Nat → Nat → Nat → Nat → Option (List Nat × Nat) →
      Option (List Nat × Nat) → σ → List Entry × σ × Bool
  | [], _idx, _i0, _e, _pos, _start, _endp, st => ([], st, false)
  | entry :: rest, idx, i0, e, pos, start, endp, st =>
      if i0 ≤ idx ∧ idx < e then
        let r := walk_entry cb entry pos (if idx = i0 then start else none) endp st
        if r.2.2 then (r.1 :: rest, r.2.1, true)
        else
          let rr := walk_slots cb rest (idx + 1) i0 e pos start endp r.2.1
          (r.1 :: rr.1, rr.2)
      else
        let rr := walk_slots cb rest (idx + 1) i0 e pos start endp st
        (entry :: rr.1, rr.2)

end

/-- `walk_tree(node, pos, start, start_len, end, end_len, callback, context)`
(overlay_address.c lines 125-151): walk the subscriber leaves of a trie node
in slot order.  The first slot is `start`'s nibble at this depth while the
depth is inside `start`, else 0; the last is `end`'s nibble while inside
`end`, else 15. -/
def walk_tree {σ : Type} (cb : Subscriber → σ → Subscriber × σ × Bool)
    (children : List Entry) (pos : Nat)
    (start endp : Option (List Nat × Nat)) (st : σ) : List Entry × σ × Bool :=
  let i0 := match start with
    | some se => if pos < se.2 * 2 then get_nibble se.1 pos else 0
    | none => 0
  let e := match endp with
    | some ee => if pos < ee.2 * 2 then get_nibble ee.1 pos + 1 else 16
    | none => 16
  walk_slots cb children 0 i0 e pos start endp st

/-- `add_explain_response(subscriber, context)` (overlay_address.c lines
355-375): allocate the please-explain payload (1024-byte limit) if needed,
set `send_full` on our own identity (`reachable == REACHABLE_SELF`), and
append the record `(SID_SIZE, sid)` to the payload.  Each `ob_append_*` that
runs out of room makes the function return 1, which stops the tree walk; the
length byte can land in the payload even when the sid append then fails,
exactly as in the C code. -/
def add_explain_response (subscriber : Subscriber) (response : DecodeContext) :
    Subscriber × DecodeContext × Bool :=
  let response := allocExplain 1024 response
  let subscriber :=
    if subscriber.reachable = REACHABLE_SELF then subscriber.withSendFull true else subscriber
  let p0 := response.please_explain.getD ⟨1024, []⟩
  let r1 := ob_append_byte p0 SID_SIZE
  if r1.2 then
    let r2 := ob_append_bytes r1.1 (subscriber.sid.take SID_SIZE)
    (subscriber, { response with please_explain := some r2.1 }, !r2.2)
  else
    (subscriber, { response with please_explain := some r1.1 }, true)

/-- `find_subscr_buffer(context, b, len, subscriber)` (overlay_address.c lines
377-420): read `len` bytes from the buffer and resolve them through the
directory (create only fires for a full 32-byte id).  On failure, flag
`invalid_addresses`, allocate the please-explain frame (MDP_MTU limit) if
needed, walk the trie over the range `[id, id]` adding a `(32, sid)` record
for every visited subscriber until the payload fills up (the walk is aborted
by the callback's non-zero return), and append the final `(len, id)` record,
whose two `ob_append_*` return values the C code ignores — each may silently
fail when the payload is full.  On success, set `context->previous`.  The
buffer is the unread remainder, returned after the `len` bytes are consumed;
the final component is the C return value (the `subscriber == NULL`
out-pointer branch is not representable and is not exercised by the callers
modelled here). -/
def find_subscr_buffer (root : List Entry) (context : DecodeContext) (b : List Nat)
    (len : Nat) (subscriber : Option Subscriber) :
    List Entry × DecodeContext × List Nat × Option Subscriber × Int :=
  if len = 0 ∨ SID_SIZE < len then
    (root, context, b, subscriber, -1)
  else if b.length < len then
    (root, context, b, subscriber, -1)
  else
    let id := b.take len
    let fr := find_subscriber root id len true
    match fr.2 with
    | none =>
        let context1 := { context with invalid_addresses := true }
        let context2 := allocExplain MDP_MTU context1
        let w := walk_tree add_explain_response fr.1 0 (some (id, len)) (some (id, len)) context2
        let context3 := w.2.1
        let p0 := context3.please_explain.getD ⟨MDP_MTU, []⟩
        let p1 := (ob_append_byte p0 len).1
        let p2 := (ob_append_bytes p1 id).1
        (w.1, { context3 with please_explain := some p2 }, b.drop len, subscriber, 0)
    | some s =>
        (fr.1, { context with previous := some s }, b.drop len, some s, 0)

/-- `overlay_address_parse(context, b, subscriber)` (overlay_address.c lines
428-456): read the lead byte; 0xFF resolves to the sender, 0xFE to the
previous address (flagging `invalid_addresses` when unset, leaving the
out-parameter untouched), anything else is a literal length handled by
`find_subscr_buffer`. -/
def overlay_address_parse (root : List Entry) (context : DecodeContext) (b : List Nat)
    (subscriber : Option Subscriber) :
    List Entry × DecodeContext × List Nat × Option Subscriber × Int :=
  match b with
  | [] => (root, context, [], subscriber, -1)
  | len :: rest =>
    if len = OA_CODE_SELF then
      match context.sender with
      | none => (root, { context with invalid_addresses := true }, rest, subscriber, 0)
      | some snd =>
          (root, { context with previous := some snd }, rest, some snd, 0)
    else if len = OA_CODE_PREVIOUS then
      match context.previous with
      | none => (root, { context with invalid_addresses := true }, rest, subscriber, 0)
      | some prev => (root, context, rest, some prev, 0)
    else
      find_subscr_buffer root context rest len subscriber

/-- The record loop of `process_explain` (overlay_address.c lines 501-518):
as long as bytes remain, read a length byte and that many id bytes; a full
32-byte record teaches us the subscriber (insert), a shorter record collects
explain responses for all matching subscribers into the reply context.
Returns none on a badly formatted message (the C function returns -1 via
WHY).  The loop is driven by a fuel counter so that it is structural; the
wrapper passes the payload length, which bounds the iteration count because
every iteration consumes at least two bytes, so the `0, _ :: _` branch is
unreachable. -/
def process_explain_loop (root : List Entry) (context : DecodeContext) :
    Nat → List Nat → Option (List Entry × DecodeContext)
  | _, [] => some (root, context)
  | 0, _ :: _ => none
  | fuel + 1, len :: rest =>
    if len = 0 ∨ SID_SIZE < len then none
    else if rest.length < len then none
    else
      let sid := rest.take len
      if len = SID_SIZE then
        process_explain_loop (find_subscriber root sid len true).1 context fuel (rest.drop len)
      else
        let w := walk_tree add_explain_response root 0 (some (sid, len)) (some (sid, len)) context
        process_explain_loop w.1 w.2.1 fuel (rest.drop len)

/-- `process_explain(frame)` (overlay_address.c lines 495-522): zero a fresh
decode context, run the record loop on the frame payload, and hand the
collected responses to `send_please_explain` (transmission is outside the
model; the updated directory and reply context are returned). -/
def process_explain (root : List Entry) (payload : List Nat) :
    Option (List Entry × DecodeContext) :=
  process_explain_loop root ⟨none, none, false, none⟩ payload.length payload

/-- `LeafInE entry pos s`: the subscriber `s` is stored as a leaf inside
`entry`, where `entry`'s own slot list (when it is a node) is indexed by
nibble `pos` of an id, and every slot index on the path to the leaf equals
the corresponding nibble of `s`'s node ID — which is exactly how
`find_subscriber` places subscribers. -/
inductive LeafInE : Entry → Nat → Subscriber → Prop where
  | here (pos : Nat) (s : Subscriber) : LeafInE (.leaf s) pos s
  | deeper (sub : List Entry) (pos : Nat) (s : Subscriber)
      (h : LeafInE (sub.getD (get_nibble s.sid pos) .empty) (pos + 1) s) :
      LeafInE (.node sub) pos s

/-- The bytes of the please-explain payload under construction (empty when no
frame has been allocated). -/
def payloadOf (ctx : DecodeContext) : List Nat :=
  (ctx.please_explain.getD ⟨0, []⟩).bytes

/-- The payload contains the record `(SID_SIZE, sid)` for subscriber `s`. -/
def HasRecord (ctx : DecodeContext) (s : Subscriber) : Prop :=
  ∃ u v, payloadOf ctx = u ++ SID_SIZE :: s.sid.take SID_SIZE ++ v

/-- A record stays in the payload when more bytes are appended. -/
theorem hasRecord_extend {ctx ctx' : DecodeContext} {s : Subscriber} {t : List Nat}
    (h : HasRecord ctx s) (hext : payloadOf ctx' = payloadOf ctx ++ t) :
    HasRecord ctx' s := by
  obtain ⟨u, v, hu⟩ := h
  refine ⟨u, v ++ t, ?_⟩
  rw [hext, hu]
  simp

/-- An append only ever extends the buffer bytes (a failed append leaves them
unchanged). -/
theorem ob_append_bytes_ext (b : OBuf) (xs : List Nat) :
    ∃ t, (ob_append_bytes b xs).1.bytes = b.bytes ++ t := by
  unfold ob_append_bytes
  split
  · exact ⟨xs, rfl⟩
  · exact ⟨[], by simp⟩

/-- A successful append appends exactly its argument. -/
theorem ob_append_bytes_ok (b : OBuf) (xs : List Nat)
    (h : (ob_append_bytes b xs).2 = true) :
    (ob_append_bytes b xs).1.bytes = b.bytes ++ xs := by
  unfold ob_append_bytes at h ⊢
  split at h
  · rw [if_pos (by assumption)]
  · simp at h

/-- An append never changes the size limit. -/
theorem ob_append_bytes_limit (b : OBuf) (xs : List Nat) :
    (ob_append_bytes b xs).1.sizeLimit = b.sizeLimit := by
  unfold ob_append_bytes
  split <;> rfl

/-- `allocExplain` does not touch `invalid_addresses`. -/
theorem allocExplain_invalid (l : Nat) (c : DecodeContext) :
    (allocExplain l c).invalid_addresses = c.invalid_addresses := by
  unfold allocExplain
  split <;> rfl

/-- `allocExplain` does not change the payload bytes (a freshly allocated
frame starts empty, like the absent frame it replaces). -/
theorem allocExplain_payload (l : Nat) (c : DecodeContext) :
    payloadOf (allocExplain l c) = payloadOf c := by
  unfold allocExplain payloadOf
  cases hpe : c.please_explain <;> simp [hpe]

/-- `allocExplain` always leaves an allocated frame behind. -/
theorem allocExplain_isSome (l : Nat) (c : DecodeContext) :
    ∃ p, (allocExplain l c).please_explain = some p := by
  unfold allocExplain
  split
  · exact ⟨⟨l, []⟩, rfl⟩
  · cases hpe : c.please_explain with
    | none => simp_all
    | some p => exact ⟨p, rfl⟩

/-- `add_explain_response` does not touch `invalid_addresses`. -/
theorem aer_invalid (s : Subscriber) (st : DecodeContext) :
    (add_explain_response s st).2.1.invalid_addresses = st.invalid_addresses := by
  simp only [add_explain_response]
  split <;> simp [allocExplain_invalid]

/-- `add_explain_response` only appends to the payload (appends that run out
of room leave it unchanged; a stray length byte may land without its sid). -/
theorem aer_ext (s : Subscriber) (st : DecodeContext) :
    ∃ t, payloadOf (add_explain_response s st).2.1 = payloadOf st ++ t := by
  rw [show payloadOf st = payloadOf (allocExplain 1024 st) from
    (allocExplain_payload 1024 st).symm]
  obtain ⟨p, hp⟩ := allocExplain_isSome 1024 st
  simp only [add_explain_response, hp, Option.getD_some]
  have hpay : payloadOf (allocExplain 1024 st) = p.bytes := by simp [payloadOf, hp]
  rw [hpay]
  split
  · obtain ⟨t1, h1⟩ := ob_append_bytes_ext p [SID_SIZE]
    obtain ⟨t2, h2⟩ := ob_append_bytes_ext (ob_append_bytes p [SID_SIZE]).1
      ((if s.reachable = REACHABLE_SELF then s.withSendFull true else s).sid.take SID_SIZE)
    refine ⟨t1 ++ t2, ?_⟩
    simp only [payloadOf, Option.getD_some, ob_append_byte] at *
    rw [h2, h1, List.append_assoc]
  · obtain ⟨t1, h1⟩ := ob_append_bytes_ext p [SID_SIZE]
    refine ⟨t1, ?_⟩
    simp only [payloadOf, Option.getD_some, ob_append_byte] at *
    exact h1

/-- When `add_explain_response` does not ask the walk to stop, both appends
succeeded and the payload gained exactly the record `(SID_SIZE, sid)`. -/
theorem aer_success (s : Subscriber) (st : DecodeContext)
    (h : (add_explain_response s st).2.2 = false) :
    payloadOf (add_explain_response s st).2.1 =
      payloadOf st ++ SID_SIZE :: s.sid.take SID_SIZE := by
  rw [show payloadOf st = payloadOf (allocExplain 1024 st) from
    (allocExplain_payload 1024 st).symm]
  obtain ⟨p, hp⟩ := allocExplain_isSome 1024 st
  have hpay : payloadOf (allocExplain 1024 st) = p.bytes := by simp [payloadOf, hp]
  simp only [add_explain_response, hp, Option.getD_some] at h ⊢
  rw [hpay]
  by_cases hc : (ob_append_byte p SID_SIZE).2 = true
  · rw [if_pos hc] at h ⊢
    simp only [Bool.not_eq_false'] at h
    have hfst := ob_append_bytes_ok p [SID_SIZE] (by simpa [ob_append_byte] using hc)
    have hsnd := ob_append_bytes_ok _ _ h
    simp only [payloadOf, Option.getD_some]
    rw [hsnd]
    simp only [ob_append_byte]
    rw [hfst]
    by_cases hr : s.reachable = REACHABLE_SELF <;> simp [hr]
  · rw [if_neg hc] at h
    simp at h

/-- Induction motive for `walk_entry` with the `add_explain_response`
callback: the walk leaves `invalid_addresses` unchanged, only appends to the
payload, and — when it was not stopped by a full payload — appends a record
for every subscriber stored under the entry whose ID agrees with `id` on the
whole nibble range covered by the `len`-byte prefix (when the walk is bounded
by `[id, id]`). -/
def WalkM1 (id : List Nat) (len : Nat) (entry : Entry) (pos : Nat)
    (start endp : Option (List Nat × Nat)) (st : DecodeContext) : Prop :=
  (walk_entry add_explain_response entry pos start endp st).2.1.invalid_addresses =
    st.invalid_addresses ∧
  (∃ t, payloadOf (walk_entry add_explain_response entry pos start endp st).2.1 =
    payloadOf st ++ t) ∧
  ((walk_entry add_explain_response entry pos start endp st).2.2 = false →
    ∀ s : Subscriber, LeafInE entry (pos + 1) s →
    (∀ q, q < 2 * len → get_nibble s.sid q = get_nibble id q) →
    (start = some (id, len) ∨ start = none) →
    endp = some (id, len) →
    HasRecord (walk_entry add_explain_response entry pos start endp st).2.1 s)

/-- Induction motive for `walk_slots` (see `WalkM1`): slot `j` of the node
holds the subtree of any subscriber whose nibble at this depth is `j`; the
record is guaranteed when `j` lies in the visited range `[max i0 idx, e)` and
the walk ran to completion (no callback stopped it). -/
def WalkM2 (id : List Nat) (len : Nat) (slots : List Entry) (idx i0 e pos : Nat)
    (start endp : Option (List Nat × Nat)) (st : DecodeContext) : Prop :=
  (walk_slots add_explain_response slots idx i0 e pos start endp st).2.1.invalid_addresses =
    st.invalid_addresses ∧
  (∃ t, payloadOf (walk_slots add_explain_response slots idx i0 e pos start endp st).2.1 =
    payloadOf st ++ t) ∧
  ((walk_slots add_explain_response slots idx i0 e pos start endp st).2.2 = false →
    ∀ (s : Subscriber) (j : Nat), LeafInE (slots.getD (j - idx) .empty) (pos + 1) s →
    (∀ q, q < 2 * len → get_nibble s.sid q = get_nibble id q) →
    (start = some (id, len) ∨ start = none) →
    endp = some (id, len) →
    idx ≤ j → i0 ≤ j → j < e →
    HasRecord (walk_slots add_explain_response slots idx i0 e pos start endp st).2.1 s)

/-- The walk with the `add_explain_response` callback satisfies `WalkM2` on
every slot list: proved by the functional induction of the walk. -/
theorem walk_slots_explain (id : List Nat) (len : Nat) :
    ∀ (slots : List Entry) (idx i0 e pos : Nat)
      (start endp : Option (List Nat × Nat)) (st : DecodeContext),
      WalkM2 id len slots idx i0 e pos start endp st := by
  refine walk_slots.induct add_explain_response (WalkM1 id len) (WalkM2 id len)
    ?_ ?_ ?_ ?_ ?_ ?_ ?_
  · -- empty entry
    intro pos start endp st
    unfold WalkM1
    refine ⟨by simp [walk_entry], ⟨[], by simp [walk_entry]⟩, ?_⟩
    intro _ s hleaf
    cases hleaf
  · -- leaf entry
    intro s2 pos start endp st
    unfold WalkM1
    refine ⟨by simp [walk_entry, aer_invalid], ?_, ?_⟩
    · obtain ⟨t, ht⟩ := aer_ext s2 st
      exact ⟨t, by simpa [walk_entry] using ht⟩
    · intro hstop s hleaf hsh hst hend
      cases hleaf
      have hsucc : (add_explain_response s2 st).2.2 = false := by
        simpa [walk_entry] using hstop
      refine ⟨payloadOf st, [], ?_⟩
      simp only [walk_entry]
      rw [aer_success s2 st hsucc]
      simp
  · -- node entry
    intro sub pos start endp st i0 e ih
    unfold_let i0 e at ih
    unfold WalkM2 at ih
    unfold WalkM1
    simp only [walk_entry]
    refine ⟨ih.1, ih.2.1, ?_⟩
    intro hstop s hleaf hsh hst hend
    cases hleaf with
    | deeper _ _ _ hin =>
      refine ih.2.2 hstop s (get_nibble s.sid (pos + 1)) (by simpa using hin) hsh hst hend
        (by omega) ?_ ?_
      · -- i0 ≤ nibble
        subst hend
        rcases hst with h | h <;> subst h
        · by_cases hp : pos + 1 < len * 2
          · have hnib := hsh (pos + 1) (by omega)
            simp [hp, hnib]
          · simp [hp]
        · simp
      · -- nibble < e
        subst hend
        by_cases hp : pos + 1 < len * 2
        · have hnib := hsh (pos + 1) (by omega)
          simp [hp, hnib]
        · simp [hp, get_nibble_lt]
  · -- nil slots
    intro idx i0 e pos start endp st
    unfold WalkM2
    refine ⟨by simp [walk_slots], ⟨[], by simp [walk_slots]⟩, ?_⟩
    intro _ s j hleaf
    simp only [List.getD] at hleaf
    cases hleaf
  · -- cons, in range, callback stopped the walk: the remaining slots are
    -- skipped, the record guarantee is vacuous
    intro entry rest idx i0 e pos start endp st hrange r hstop ih1
    unfold WalkM1 at ih1
    unfold_let r at hstop
    unfold WalkM2
    have hstep : walk_slots add_explain_response (entry :: rest) idx i0 e pos start endp st =
        ((walk_entry add_explain_response entry pos
            (if idx = i0 then start else none) endp st).1 :: rest,
         (walk_entry add_explain_response entry pos
            (if idx = i0 then start else none) endp st).2.1, true) := by
      simp only [walk_slots]
      rw [if_pos hrange]
      simp only [hstop, if_true]
    rw [hstep]
    refine ⟨ih1.1, ih1.2.1, ?_⟩
    intro hfalse
    simp at hfalse
  · -- cons, in range, continue
    intro entry rest idx i0 e pos start endp st hrange r hnstop ih1 ih2
    unfold WalkM1 at ih1
    unfold WalkM2 at ih2 ⊢
    unfold_let r at hnstop
    have hrfalse : (walk_entry add_explain_response entry pos
        (if idx = i0 then start else none) endp st).2.2 = false := by
      simpa using hnstop
    have hstep : walk_slots add_explain_response (entry :: rest) idx i0 e pos start endp st =
        ((walk_entry add_explain_response entry pos
            (if idx = i0 then start else none) endp st).1 ::
          (walk_slots add_explain_response rest (idx + 1) i0 e pos start endp
            (walk_entry add_explain_response entry pos
              (if idx = i0 then start else none) endp st).2.1).1,
         (walk_slots add_explain_response rest (idx + 1) i0 e pos start endp
            (walk_entry add_explain_response entry pos
              (if idx = i0 then start else none) endp st).2.1).2) := by
      simp only [walk_slots]
      rw [if_pos hrange]
      simp only [hrfalse, Bool.false_eq_true, if_false]
    rw [hstep]
    refine ⟨?_, ?_, ?_⟩
    · rw [ih2.1, ih1.1]
    · obtain ⟨t1, h1⟩ := ih1.2.1
      obtain ⟨t2, h2⟩ := ih2.2.1
      refine ⟨t1 ++ t2, ?_⟩
      rw [h2, h1]
      simp
    · intro hstopf s j hleaf hsh hst hend hidx hi0 hje
      by_cases hj : j = idx
      · subst hj
        simp only [Nat.sub_self] at hleaf
        have hleaf' : LeafInE entry (pos + 1) s := by
          simpa [List.getD] using hleaf
        have hst' : (if j = i0 then start else none) = some (id, len) ∨
            (if j = i0 then start else none) = none := by
          by_cases hji : j = i0
          · simpa [hji] using hst
          · simp [hji]
        have hrecord := ih1.2.2 hrfalse s hleaf' hsh hst' hend
        obtain ⟨t2, h2⟩ := ih2.2.1
        exact hasRecord_extend hrecord h2
      · have hleaf' : LeafInE (rest.getD (j - (idx + 1)) .empty) (pos + 1) s := by
          have harith : j - idx = (j - (idx + 1)) + 1 := by omega
          rw [harith] at hleaf
          simpa [List.getD] using hleaf
        exact ih2.2.2 hstopf s j hleaf' hsh hst hend (by omega) hi0 hje
  · -- cons, slot out of range
    intro entry rest idx i0 e pos start endp st hnrange ih2
    unfold WalkM2 at ih2 ⊢
    have hstep : walk_slots add_explain_response (entry :: rest) idx i0 e pos start endp st =
        (entry :: (walk_slots add_explain_response rest (idx + 1) i0 e pos start endp st).1,
         (walk_slots add_explain_response rest (idx + 1) i0 e pos start endp st).2) := by
      simp only [walk_slots]
      rw [if_neg hnrange]
    rw [hstep]
    refine ⟨ih2.1, ih2.2.1, ?_⟩
    intro hstopf s j hleaf hsh hst hend hidx hi0 hje
    by_cases hj : j = idx
    · subst hj
      exact absurd ⟨hi0, hje⟩ hnrange
    · have hleaf' : LeafInE (rest.getD (j - (idx + 1)) .empty) (pos + 1) s := by
        have harith : j - idx = (j - (idx + 1)) + 1 := by omega
        rw [harith] at hleaf
        simpa [List.getD] using hleaf
      exact ih2.2.2 hstopf s j hleaf' hsh hst hend (by omega) hi0 hje



/-- `walk_tree` over the range `[id, id]` (as `find_subscr_buffer` and
`process_explain` call it): it leaves `invalid_addresses` unchanged, only
appends to the please-explain payload, and — when no callback stopped the
walk (the payload never filled up) — appends a `(SID_SIZE, sid)` record for
every subscriber in the walked node whose node ID agrees with `id` on the
first `2·len` nibbles. -/
theorem walk_tree_explain (id : List Nat) (len : Nat) (children : List Entry)
    (pos : Nat) (start : Option (List Nat × Nat)) (st : DecodeContext)
    (hst : start = some (id, len) ∨ start = none) :
    (walk_tree add_explain_response children pos start (some (id, len))
      st).2.1.invalid_addresses = st.invalid_addresses ∧
    (∃ t, payloadOf (walk_tree add_explain_response children pos start (some (id, len))
      st).2.1 = payloadOf st ++ t) ∧
    ((walk_tree add_explain_response children pos start (some (id, len)) st).2.2 = false →
      ∀ s : Subscriber, LeafInE (.node children) pos s →
      (∀ q, q < 2 * len → get_nibble s.sid q = get_nibble id q) →
      HasRecord (walk_tree add_explain_response children pos start (some (id, len)) st).2.1 s) := by
  unfold walk_tree
  refine ⟨(walk_slots_explain id len children 0 _ _ pos start (some (id, len)) st).1,
    (walk_slots_explain id len children 0 _ _ pos start (some (id, len)) st).2.1, ?_⟩
  intro hstop s hleaf hsh
  cases hleaf with
  | deeper _ _ _ hin =>
    refine (walk_slots_explain id len children 0 _ _ pos start (some (id, len))
        st).2.2 hstop s (get_nibble s.sid pos) (by simpa using hin) hsh hst rfl
      (by omega) ?_ ?_
    · rcases hst with h | h <;> subst h
      · by_cases hp : pos < len * 2
        · have hnib := hsh pos (by omega)
          simp [hp, hnib]
        · simp [hp]
      · simp
    · by_cases hp : pos < len * 2
      · have hnib := hsh pos (by omega)
        simp [hp, hnib]
      · simp [hp, get_nibble_lt]



/-- Writing back the value read from a slot leaves the list unchanged. -/
theorem set_getD_self {α : Type} : ∀ (l : List α) (i : Nat) (d : α), l.set i (l.getD i d) = l
  | [], _, _ => rfl
  | _ :: _, 0, _ => rfl
  | a :: l, i + 1, d => congrArg (a :: ·) (set_getD_self l i d)

/-- A lookup with `create = 0` never mutates the trie. -/
theorem findFrom_false_tree (sid : List Nat) (len : Nat) :
    ∀ fuel ch pos, (findFrom ch sid len false pos fuel).1 = ch := by
  intro fuel
  induction fuel with
  | zero => intro ch pos; rfl
  | succ fuel ih =>
    intro ch pos
    rw [findFrom]
    cases hch : ch.getD (get_nibble sid pos) .empty with
    | node sub =>
      by_cases hp : pos + 1 < len * 2
      · simp only [if_pos hp]
        rw [ih sub (pos + 1), ← hch]
        exact set_getD_self ch _ _
      · simp only [if_neg hp]
    | empty =>
      simp
    | leaf ret =>
      by_cases he : ret.sid.take len = sid.take len <;> simp [he]

/-- `find_subscriber` with an abbreviated length never mutates the trie
(`create` is forced to 0 when `len != SID_SIZE`). -/
theorem find_subscriber_false_tree (root : List Entry) (sid : List Nat) (len : Nat)
    (c : Bool) (h : len ≠ SID_SIZE) : (find_subscriber root sid len c).1 = root := by
  unfold find_subscriber
  simp only [h, if_true, ne_eq, not_false_eq_true]
  exact findFrom_false_tree sid len (len * 2) root 0

/-- Known subscriber X of the please-explain scenario. -/
def X0 : List Nat := 0x10 :: 0x22 :: 0x33 :: 0x44 :: List.replicate 28 0

/-- Known subscriber Y of the please-explain scenario; shares the 3-byte
prefix (6 nibbles) with X0 and diverges at nibble 6. -/
def Y0 : List Nat := 0x10 :: 0x22 :: 0x33 :: 0x55 :: List.replicate 28 0

/-- The ambiguous 3-byte prefix shared by X0 and Y0. -/
def pfx0 : List Nat := [0x10, 0x22, 0x33]

/-- The directory holding exactly X0 and Y0. -/
def rootXY : List Entry :=
  (find_subscriber (find_subscriber emptyNode X0 32 true).1 Y0 32 true).1

/-- The expected please-explain payload of the scenario:
`(32, X0) (32, Y0) (3, prefix)`. -/
def explPayload : List Nat := [SID_SIZE] ++ X0 ++ [SID_SIZE] ++ Y0 ++ [3] ++ pfx0

/-- A successful append, spelled as an equation (the bytes fit within the
limit). -/
theorem ob_append_bytes_ok_of_room (b : OBuf) (xs : List Nat)
    (h : b.bytes.length + xs.length ≤ b.sizeLimit) :
    ob_append_bytes b xs = ({ b with bytes := b.bytes ++ xs }, true) := by
  unfold ob_append_bytes
  rw [if_pos h]

/-- The trailing `(len, id)` appends of `find_subscr_buffer` both succeed
when the payload has room for them. -/
theorem trailing_appends (p : OBuf) (len : Nat) (id : List Nat)
    (hid : id.length = len)
    (hroom : p.bytes.length + 1 + len ≤ p.sizeLimit) :
    (ob_append_bytes (ob_append_byte p len).1 id).1.bytes = p.bytes ++ len :: id := by
  have h1 : ob_append_bytes p [len] = ({ p with bytes := p.bytes ++ [len] }, true) :=
    ob_append_bytes_ok_of_room p [len] (by simp; omega)
  have h2 : ob_append_bytes { p with bytes := p.bytes ++ [len] } id =
      ({ p with bytes := p.bytes ++ [len] ++ id }, true) :=
    ob_append_bytes_ok_of_room { p with bytes := p.bytes ++ [len] } id
      (by simp [hid]; omega)
  rw [ob_append_byte, h1]
  simp [h2]

/-- The payload bytes do not depend on the `getD` fallback (both fallbacks
are empty buffers). -/
theorem payloadOf_getD (ctx : DecodeContext) :
    (ctx.please_explain.getD ⟨MDP_MTU, []⟩).bytes = payloadOf ctx := by
  unfold payloadOf
  cases ctx.please_explain <;> rfl

set_option maxHeartbeats 8000000 in
/-- C6 (amended): when decode reads a literal prefix that resolves to no
unique known subscriber, the error is non-fatal: `find_subscr_buffer`
returns 0 (success), sets `ctx.invalid_addresses`, and — provided the
enumeration was not cut short by the payload filling up (the callback
returns 1 on a failed append, aborting the walk) and the payload still has
room for the trailing record — appends a `(32, sid)` record for every known
subscriber matching the prefix, followed by the final `(len, prefix)`
record; concretely, a 3-byte prefix matching the known subscribers X0 and Y0
decodes to success with payload `(32, X0) (32, Y0) (3, prefix)`, and
`process_explain` on that payload at a peer inserts both X0 and Y0 into the
peer's directory. -/
theorem claim6_amended :
    (∀ (root : List Entry) (ctx : DecodeContext) (b : List Nat) (len : Nat)
        (sub0 : Option Subscriber),
      1 ≤ len → len < SID_SIZE → len ≤ b.length →
      (find_subscriber root (b.take len) len true).2 = none →
      (walk_tree add_explain_response root 0 (some (b.take len, len)) (some (b.take len, len))
        (allocExplain MDP_MTU { ctx with invalid_addresses := true })).2.2 = false →
      ((walk_tree add_explain_response root 0 (some (b.take len, len)) (some (b.take len, len))
          (allocExplain MDP_MTU
            { ctx with invalid_addresses := true })).2.1.please_explain.getD
          ⟨MDP_MTU, []⟩).bytes.length + 1 + len ≤
        ((walk_tree add_explain_response root 0 (some (b.take len, len)) (some (b.take len, len))
          (allocExplain MDP_MTU
            { ctx with invalid_addresses := true })).2.1.please_explain.getD
          ⟨MDP_MTU, []⟩).sizeLimit →
      (find_subscr_buffer root ctx b len sub0).2.2.2.2 = 0 ∧
      (find_subscr_buffer root ctx b len sub0).2.1.invalid_addresses = true ∧
      (∃ wp,
        payloadOf (find_subscr_buffer root ctx b len sub0).2.1 = wp ++ len :: b.take len ∧
        (∃ t, wp = payloadOf ctx ++ t) ∧
        (∀ s : Subscriber, LeafInE (.node root) 0 s →
          (∀ q, q < 2 * len → get_nibble s.sid q = get_nibble (b.take len) q) →
          ∃ u v, wp = u ++ SID_SIZE :: s.sid.take SID_SIZE ++ v))) ∧
    (overlay_address_parse rootXY ctxEmpty (3 :: pfx0) none).2.2.2.2 = 0 ∧
    (overlay_address_parse rootXY ctxEmpty (3 :: pfx0) none).2.1.invalid_addresses = true ∧
    (overlay_address_parse rootXY ctxEmpty (3 :: pfx0) none).2.1.please_explain =
      some ⟨MDP_MTU, explPayload⟩ ∧
    ((process_explain emptyNode explPayload).map fun p =>
        ((find_subscriber p.1 X0 32 false).2.map Subscriber.sid,
         (find_subscriber p.1 Y0 32 false).2.map Subscriber.sid)) =
      some (some X0, some Y0) := by
  refine ⟨?_, by decide, by decide, by decide, by decide⟩
  intro root ctx b len sub0 hl1 hl2 hlen hfind hwstop hroom
  have h32 : SID_SIZE = 32 := rfl
  have hcond : ¬ (len = 0 ∨ SID_SIZE < len) := by
    rw [h32] at hl2 ⊢
    omega
  have htree : (find_subscriber root (b.take len) len true).1 = root :=
    find_subscriber_false_tree root _ len true (by omega)
  have hidlen : (b.take len).length = len := by
    rw [List.length_take]
    omega
  unfold find_subscr_buffer
  rw [if_neg hcond, if_neg (by omega : ¬ b.length < len)]
  simp only [hfind, htree]
  have hw := walk_tree_explain (b.take len) len root 0 (some (b.take len, len))
    (allocExplain MDP_MTU { ctx with invalid_addresses := true }) (Or.inl rfl)
  refine ⟨trivial, ?_, ?_⟩
  · simp [hw.1, allocExplain_invalid]
  · refine ⟨((walk_tree add_explain_response root 0 (some (b.take len, len))
        (some (b.take len, len))
        (allocExplain MDP_MTU
          { ctx with invalid_addresses := true })).2.1.please_explain.getD
        ⟨MDP_MTU, []⟩).bytes, ?_, ?_, ?_⟩
    · simp only [payloadOf, Option.getD_some]
      exact trailing_appends _ len (b.take len) hidlen hroom
    · obtain ⟨t, ht⟩ := hw.2.1
      refine ⟨t, ?_⟩
      rw [payloadOf_getD, ht, allocExplain_payload]
      rfl
    · intro s hleaf hsh
      obtain ⟨u, v, huv⟩ := hw.2.2 hwstop s hleaf hsh
      refine ⟨u, v, ?_⟩
      rw [payloadOf_getD, huv]

/-- A near-full please-explain payload, as left behind by earlier
unresolved abbreviations in the same decoded frame: 4 bytes short of the
MDP_MTU limit. -/
def ctxFullPE : DecodeContext :=
  ⟨none, none, false, some ⟨MDP_MTU, List.replicate (MDP_MTU - 4) 0⟩⟩

/-- `ctxFullPE` after `find_subscr_buffer` flags `invalid_addresses`. -/
def ctxCE1 : DecodeContext :=
  ⟨none, none, true, some ⟨MDP_MTU, List.replicate (MDP_MTU - 4) 0⟩⟩

/-- The near-full payload after the doomed first record's length byte. -/
def bufCE1 : OBuf := ⟨MDP_MTU, List.replicate (MDP_MTU - 4) 0 ++ [SID_SIZE]⟩

/-- The payload after the trailing record's length byte (its prefix bytes no
longer fit). -/
def bufCE2 : OBuf := ⟨MDP_MTU, List.replicate (MDP_MTU - 4) 0 ++ [SID_SIZE] ++ [3]⟩

/-- `ctxCE1` after the walk was aborted by the failed sid append. -/
def ctxCE2 : DecodeContext := ⟨none, none, true, some bufCE1⟩

/-- The depth-6 node of the (X0, Y0) directory: the two leaves at their
diverging nibbles 4 and 5. -/
def ceN6 : List Entry :=
  [.empty, .empty, .empty, .empty, .leaf (.mk X0 7 0 none none false),
   .leaf (.mk Y0 7 0 none none false), .empty, .empty, .empty, .empty, .empty,
   .empty, .empty, .empty, .empty, .empty]

/-- Depth-5 node (shared nibble 3). -/
def ceN5 : List Entry :=
  [.empty, .empty, .empty, .node ceN6, .empty, .empty, .empty, .empty, .empty,
   .empty, .empty, .empty, .empty, .empty, .empty, .empty]

/-- Depth-4 node (shared nibble 3). -/
def ceN4 : List Entry :=
  [.empty, .empty, .empty, .node ceN5, .empty, .empty, .empty, .empty, .empty,
   .empty, .empty, .empty, .empty, .empty, .empty, .empty]

/-- Depth-3 node (shared nibble 2). -/
def ceN3 : List Entry :=
  [.empty, .empty, .node ceN4, .empty, .empty, .empty, .empty, .empty, .empty,
   .empty, .empty, .empty, .empty, .empty, .empty, .empty]

/-- Depth-2 node (shared nibble 2). -/
def ceN2 : List Entry :=
  [.empty, .empty, .node ceN3, .empty, .empty, .empty, .empty, .empty, .empty,
   .empty, .empty, .empty, .empty, .empty, .empty, .empty]

/-- Depth-1 node (shared nibble 0). -/
def ceN1 : List Entry :=
  [.node ceN2, .empty, .empty, .empty, .empty, .empty, .empty, .empty, .empty,
   .empty, .empty, .empty, .empty, .empty, .empty, .empty]

/-- The (X0, Y0) directory written out as a literal (root nibble 1). -/
def rootXYlit : List Entry :=
  [.empty, .node ceN1, .empty, .empty, .empty, .empty, .empty, .empty, .empty,
   .empty, .empty, .empty, .empty, .empty, .empty, .empty]

/-- The literal tree is exactly what the two inserts build. -/
theorem rootXYlit_eq : rootXY = rootXYlit := by rfl

set_option maxHeartbeats 1600000 in
/-- C6 counterexample: with the please-explain payload 4 bytes short of its
limit, the same ambiguous 3-byte prefix against the same directory (X0, Y0)
still decodes to success, but the payload gains NO `(32, sid)` record: the
first record's length byte lands (a stray 32), its sid append fails and
aborts the walk before Y0 is visited, and of the trailing record only the
length byte 3 fits — refuting the claim that a record is appended for every
matching subscriber followed by the `(len, prefix)` record. -/
theorem claim6_counterexample :
    (find_subscr_buffer rootXY ctxFullPE pfx0 3 none).2.2.2.2 = 0 ∧
    (find_subscr_buffer rootXY ctxFullPE pfx0 3 none).2.1.please_explain =
      some ⟨MDP_MTU, List.replicate (MDP_MTU - 4) 0 ++ [SID_SIZE, 3]⟩ := by
  have hb1 : ob_append_bytes ⟨MDP_MTU, List.replicate (MDP_MTU - 4) 0⟩ [SID_SIZE] =
      (bufCE1, true) := by
    have hc : (⟨MDP_MTU, List.replicate (MDP_MTU - 4) 0⟩ : OBuf).bytes.length +
        ([SID_SIZE] : List Nat).length ≤
        (⟨MDP_MTU, List.replicate (MDP_MTU - 4) 0⟩ : OBuf).sizeLimit := by
      simp only [List.length_replicate, List.length_cons, List.length_nil]
      decide
    unfold ob_append_bytes
    rw [if_pos hc]
    rfl
  have hb2 : ob_append_bytes bufCE1 (X0.take SID_SIZE) = (bufCE1, false) := by
    have hc : ¬ (bufCE1.bytes.length + (X0.take SID_SIZE).length ≤ bufCE1.sizeLimit) := by
      simp only [bufCE1, List.length_append, List.length_replicate, List.length_cons,
        List.length_nil]
      decide
    unfold ob_append_bytes
    rw [if_neg hc]
  have haer : add_explain_response (.mk X0 7 0 none none false) ctxCE1 =
      (.mk X0 7 0 none none false, ctxCE2, true) := by
    simp only [add_explain_response]
    rw [show allocExplain 1024 ctxCE1 = ctxCE1 from rfl]
    rw [show (ctxCE1.please_explain.getD ⟨1024, []⟩) =
      (⟨MDP_MTU, List.replicate (MDP_MTU - 4) 0⟩ : OBuf) from rfl]
    simp only [ob_append_byte, hb1, Subscriber.reachable, Subscriber.sid, REACHABLE_SELF]
    norm_num [hb2]
    rfl
  have hwalk : walk_tree add_explain_response rootXYlit 0 (some (pfx0, 3)) (some (pfx0, 3))
      ctxCE1 = (rootXYlit, ctxCE2, true) := by
    simp [walk_tree, walk_slots, walk_entry, rootXYlit, ceN1, ceN2, ceN3, ceN4, ceN5, ceN6,
      haer, get_nibble, pfx0]
  have hfind : (find_subscriber rootXYlit pfx0 3 true).2 = none := by decide
  have htree : (find_subscriber rootXYlit pfx0 3 true).1 = rootXYlit :=
    find_subscriber_false_tree _ _ _ _ (by decide)
  have hb3 : ob_append_bytes bufCE1 [3] = (bufCE2, true) := by
    have hc : bufCE1.bytes.length + ([3] : List Nat).length ≤ bufCE1.sizeLimit := by
      simp only [bufCE1, List.length_append, List.length_replicate, List.length_cons,
        List.length_nil]
      decide
    unfold ob_append_bytes
    rw [if_pos hc]
    rfl
  have hb4 : ob_append_bytes bufCE2 pfx0 = (bufCE2, false) := by
    have hc : ¬ (bufCE2.bytes.length + pfx0.length ≤ bufCE2.sizeLimit) := by
      simp only [bufCE2, pfx0, List.length_append, List.length_replicate, List.length_cons,
        List.length_nil]
      decide
    unfold ob_append_bytes
    rw [if_neg hc]
  rw [rootXYlit_eq]
  unfold find_subscr_buffer
  rw [if_neg (by decide), if_neg (by decide)]
  rw [show List.take 3 pfx0 = pfx0 from rfl]
  simp only [hfind, htree]
  rw [show ({ ctxFullPE with invalid_addresses := true } : DecodeContext) = ctxCE1 from rfl]
  rw [show allocExplain MDP_MTU ctxCE1 = ctxCE1 from rfl]
  rw [hwalk]
  rw [show (ctxCE2.please_explain.getD ⟨MDP_MTU, []⟩) = bufCE1 from rfl]
  simp only [ob_append_byte, hb3, hb4]
  refine ⟨trivial, ?_⟩
  simp [bufCE2]

set_option maxHeartbeats 8000000 in
/-- C6 witness: the universal part of the amended theorem applied at the
concrete scenario directory (X0, Y0) with the 3-byte prefix, where the walk
completes and the payload has room. -/
theorem claim6_witness :
    (find_subscr_buffer rootXY ctxEmpty pfx0 3 none).2.2.2.2 = 0 ∧
    (find_subscr_buffer rootXY ctxEmpty pfx0 3 none).2.1.invalid_addresses = true ∧
    (∃ wp,
      payloadOf (find_subscr_buffer rootXY ctxEmpty pfx0 3 none).2.1 =
        wp ++ 3 :: pfx0.take 3 ∧
      (∃ t, wp = payloadOf ctxEmpty ++ t) ∧
      (∀ s : Subscriber, LeafInE (.node rootXY) 0 s →
        (∀ q, q < 2 * 3 → get_nibble s.sid q = get_nibble (pfx0.take 3) q) →
        ∃ u v, wp = u ++ SID_SIZE :: s.sid.take SID_SIZE ++ v)) :=
  claim6_amended.1 rootXY ctxEmpty pfx0 3 none (by decide) (by decide)
    (by decide) (by decide) (by decide) (by decide)


/-! ## Encode/decode round trip (C8) -/

/-- A lookup that succeeds with `create = 0` succeeds identically with
`create = 1`: the successful `memcmp` branch is reached before any creation
logic. -/
theorem findFrom_false_imp_true (sid : List Nat) (len : Nat) (s : Subscriber) :
    ∀ fuel ch pos, (findFrom ch sid len false pos fuel).2 = some s →
      (findFrom ch sid len true pos fuel).2 = some s := by
  intro fuel
  induction fuel with
  | zero => intro ch pos h; simp [findFrom] at h
  | succ fuel ih =>
    intro ch pos h
    rw [findFrom] at h
    rw [findFrom]
    cases hch : ch.getD (get_nibble sid pos) .empty with
    | node sub =>
      rw [hch] at h
      by_cases hp : pos + 1 < len * 2
      · simp only [if_pos hp] at h ⊢
        exact ih sub (pos + 1) h
      · simp only [if_neg hp] at h
        simp at h
    | empty =>
      rw [hch] at h
      simp at h
    | leaf ret =>
      rw [hch] at h
      by_cases he : ret.sid.take len = sid.take len
      · simp only [if_pos he] at h ⊢
        exact h
      · simp only [if_neg he] at h
        simp at h

/-- As `find_subscriber` calls it: present with `create = 0` implies found
with `create = 1`. -/
theorem find_subscriber_false_imp_true (root : List Entry) (sid : List Nat)
    (s : Subscriber) (h : (find_subscriber root sid 32 false).2 = some s) :
    (find_subscriber root sid 32 true).2 = some s := by
  unfold find_subscriber at h ⊢
  simp only [SID_SIZE] at h ⊢
  norm_num at h ⊢
  exact findFrom_false_imp_true sid 32 s 64 root 0 h

/-- C8: a subscriber present in the directory whose encoding under an empty
context carries the length byte 32 (either because `send_full` is set or
because the clamped abbreviated length reaches 32) survives the round trip:
encoding it and decoding the resulting buffer under a fresh empty context
resolves to the same subscriber with return code 0 (success). -/
theorem claim8_roundtrip (root : List Entry) (s : Subscriber)
    (hlen : s.sid.length = 32)
    (hpresent : (find_subscriber root s.sid 32 false).2 = some s)
    (henc : (if s.send_full then SID_SIZE
        else min ((s.abbreviate_len + 2) / 2 +
          (if s.reachable = REACHABLE_SELF then 1 else 0)) SID_SIZE) = 32) :
    (overlay_address_parse root ctxEmpty
      (overlay_address_append (some ctxEmpty) [] s).2.1 none).2.2.2.1 = some s ∧
    (overlay_address_parse root ctxEmpty
      (overlay_address_append (some ctxEmpty) [] s).2.1 none).2.2.2.2 = 0 := by
  have htake : s.sid.take 32 = s.sid := by
    rw [← hlen]
    exact List.take_length s.sid
  have hbuf : (overlay_address_append (some ctxEmpty) [] s).2.1 = 32 :: s.sid := by
    unfold overlay_address_append
    simp only [ctxEmpty]
    cases hsf : s.send_full with
    | true =>
      rw [hsf] at henc
      simp only [if_pos rfl] at henc
      simp [SID_SIZE, htake]
    | false =>
      rw [hsf] at henc
      simp only [Bool.false_eq_true, if_false] at henc
      have hl3 : (if (if s.reachable = REACHABLE_SELF then (s.abbreviate_len + 2) / 2 + 1
          else (s.abbreviate_len + 2) / 2) > SID_SIZE then SID_SIZE
          else (if s.reachable = REACHABLE_SELF then (s.abbreviate_len + 2) / 2 + 1
          else (s.abbreviate_len + 2) / 2)) = 32 := by
        rw [clamp_eq_min]
        by_cases hrs : s.reachable = REACHABLE_SELF
        · simpa [hrs] using henc
        · simpa [hrs] using henc
      by_cases hrs : s.reachable = REACHABLE_SELF <;>
        simp only [hrs, if_pos, if_neg, if_true, if_false] <;>
        simp_all [htake]
  rw [hbuf]
  have hfound := find_subscriber_false_imp_true root s.sid s hpresent
  simp only [overlay_address_parse, OA_CODE_SELF, OA_CODE_PREVIOUS, find_subscr_buffer,
    SID_SIZE, htake, hfound, hlen]
  norm_num


/-- A subscriber with `send_full` set (so its encoding carries length byte
32). -/
def s8 : Subscriber := .mk (0x10 :: List.replicate 31 7) 1 0 none none true

/-- A directory holding exactly `s8`. -/
def root8 : List Entry := emptyNode.set 1 (.leaf s8)

/-- C8 witness: the round-trip theorem applied at the one-subscriber
directory with `send_full` set. -/
theorem claim8_witness :
    (overlay_address_parse root8 ctxEmpty
      (overlay_address_append (some ctxEmpty) [] s8).2.1 none).2.2.2.1 = some s8 ∧
    (overlay_address_parse root8 ctxEmpty
      (overlay_address_append (some ctxEmpty) [] s8).2.1 none).2.2.2.2 = 0 :=
  claim8_roundtrip root8 s8 (by decide) (by decide) (by decide)


/-!
## The companion abbreviation subsystem (C9, C10)

The second source file (the old address-abbreviation module) uses its own
one-byte opcodes 0x00-0x0f, declared in a header that is not among the
sources but enumerated in the file's leading comment.  Its definitions are
scoped in the `Abbrev` namespace to keep them apart from the codes of
overlay_address.c.
-/

namespace Abbrev

/-- Modelled from the spec: reserved code 0x00. -/
def OA_CODE_00 : Nat := 0x00

/-- Modelled from the spec: one-byte index lookup. -/
def OA_CODE_INDEX : Nat := 0x01

/-- Modelled from the spec: reserved two-byte-index code 0x02. -/
def OA_CODE_02 : Nat := 0x02

/-- Modelled from the spec: same as last address. -/
def OA_CODE_PREVIOUS : Nat := 0x03

/-- Modelled from the spec: address matches sender (unimplemented). -/
def OA_CODE_04 : Nat := 0x04

/-- Modelled from the spec: 3-byte prefix. -/
def OA_CODE_PREFIX3 : Nat := 0x05

/-- Modelled from the spec: 7-byte prefix. -/
def OA_CODE_PREFIX7 : Nat := 0x06

/-- Modelled from the spec: 11-byte prefix. -/
def OA_CODE_PREFIX11 : Nat := 0x07

/-- Modelled from the spec: full address with 1-byte index allocation. -/
def OA_CODE_FULL_INDEX1 : Nat := 0x08

/-- Modelled from the spec: 3-byte prefix with 1-byte index allocation. -/
def OA_CODE_PREFIX3_INDEX1 : Nat := 0x09

/-- Modelled from the spec: 7-byte prefix with 1-byte index allocation. -/
def OA_CODE_PREFIX7_INDEX1 : Nat := 0x0a

/-- Modelled from the spec: 11-byte prefix with 1-byte index allocation. -/
def OA_CODE_PREFIX11_INDEX1 : Nat := 0x0b

/-- Modelled from the spec: reserved code 0x0c. -/
def OA_CODE_0C : Nat := 0x0c

/-- Modelled from the spec: 11-byte prefix with 2-byte index allocation. -/
def OA_CODE_PREFIX11_INDEX2 : Nat := 0x0d

/-- Modelled from the spec: full address with 2-byte index allocation. -/
def OA_CODE_FULL_INDEX2 : Nat := 0x0e

/-- Modelled from the spec: link-local broadcast. -/
def OA_CODE_BROADCAST : Nat := 0x0f

/-- Modelled from the spec: the outcome codes OA_RESOLVED, OA_PLEASEEXPLAIN
and OA_UNSUPPORTED of the abbreviation expander (numeric values live in the
missing header); `unimplementedExit` stands for the `exit(WHY(...))` call on
the unimplemented index code. -/
inductive OAResult where
  | resolved
  | pleaseexplain
  | unsupported
  | unimplementedExit
  deriving DecidableEq

/-- `overlay_address_cache`: the bucket array of recently seen addresses and
the shift used by the lookup function (the allocation path sizes it from a
configuration constant in the missing header; the cache is modelled as
already allocated). -/
structure OverlayAddressCache where
  shift : Nat
  sids : List (List Nat)
  deriving DecidableEq

/-- The slot-index expression of `overlay_abbreviate_cache_address`
(part_000 line 165): `((sid[0]<<16)|(sid[0]<<8)|sid[2])>>cache->shift`. -/
def cache_address_index (sidb : List Nat) (shift : Nat) : Nat :=
  (((sidb.getD 0 0) <<< 16) ||| ((sidb.getD 0 0) <<< 8) ||| sidb.getD 2 0) >>> shift

/-- The slot-index expression of `overlay_abbreviate_cache_lookup`
(part_000 line 328): `((in[0]<<16)|(in[0]<<8)|in[2])>>cache->shift`. -/
def cache_lookup_index (inb : List Nat) (shift : Nat) : Nat :=
  (((inb.getD 0 0) <<< 16) ||| ((inb.getD 0 0) <<< 8) ||| inb.getD 2 0) >>> shift

/-- `overlay_abbreviate_cache_address(sid)` (part_000 lines 136-176), for an
already-allocated cache: compute the slot, report whether the address was
already there, and store it otherwise. -/
def overlay_abbreviate_cache_address (cache : OverlayAddressCache) (sid : List Nat) :
    OverlayAddressCache × Bool :=
  let index := cache_address_index sid cache.shift
  if (cache.sids.getD index []).take SID_SIZE = sid.take SID_SIZE then
    (cache, true)
  else
    ({ cache with sids := cache.sids.set index (sid.take SID_SIZE) }, false)

/-- `overlay_abbreviate_cache_lookup(in, out, ofs, prefix_bytes, index_bytes)`
(part_000 lines 322-353): compare `prefix_bytes` bytes of the input against
the slot; on mismatch ask for an explanation, on match append the full cached
SID to the output (the `overlay_abbreviate_remember_index` side effect only
prints and returns an error which the code ignores). -/
def overlay_abbreviate_cache_lookup (cache : OverlayAddressCache) (inb out : List Nat)
    (prefix_bytes _index_bytes : Nat) : List Nat × OAResult :=
  let index := cache_lookup_index inb cache.shift
  if inb.take prefix_bytes ≠ (cache.sids.getD index []).take prefix_bytes then
    (out, .pleaseexplain)
  else
    (out ++ (cache.sids.getD index []).take SID_SIZE, .resolved)

/-- `overlay_abbreviate_expand_address(in, inofs, out, ofs)` (part_000 lines
262-307): `inb` is the input from offset `*inofs` (so `inb[0]` is the lead
byte), `prev` is the `overlay_abbreviate_previous_address` global; returns
the number of input bytes consumed, the output buffer, and the outcome.
Note the prefix cases hand `inb` — still positioned at the opcode byte — to
the cache lookup. -/
def overlay_abbreviate_expand_address (cache : OverlayAddressCache) (prev : List Nat)
    (inb out : List Nat) : Nat × List Nat × OAResult :=
  let b0 := inb.getD 0 0
  if b0 = OA_CODE_00 ∨ b0 = OA_CODE_02 ∨ b0 = OA_CODE_04 ∨ b0 = OA_CODE_0C then
    (1, out, .unsupported)
  else if b0 = OA_CODE_INDEX then
    (0, out, .unimplementedExit)
  else if b0 = OA_CODE_PREVIOUS then
    (1, out ++ prev.take SID_SIZE, .resolved)
  else if b0 = OA_CODE_PREFIX3 ∨ b0 = OA_CODE_PREFIX3_INDEX1 then
    let bytes := if b0 = 0x09 then 1 else 0
    let r := overlay_abbreviate_cache_lookup cache inb out 3 bytes
    (3 + bytes, r.1, r.2)
  else if b0 = OA_CODE_PREFIX7 ∨ b0 = OA_CODE_PREFIX7_INDEX1 then
    let bytes := if b0 = OA_CODE_PREFIX7_INDEX1 then 1 else 0
    let r := overlay_abbreviate_cache_lookup cache inb out 7 bytes
    (7 + bytes, r.1, r.2)
  else if b0 = OA_CODE_PREFIX11 ∨ b0 = OA_CODE_PREFIX11_INDEX1 ∨
      b0 = OA_CODE_PREFIX11_INDEX2 then
    let bytes := if b0 = OA_CODE_PREFIX11_INDEX1 then 1
      else if b0 = OA_CODE_PREFIX11_INDEX2 then 2 else 0
    let r := overlay_abbreviate_cache_lookup cache inb out 11 bytes
    (11 + bytes, r.1, r.2)
  else if b0 = OA_CODE_BROADCAST then
    (1, out ++ List.replicate SID_SIZE 0xff, .resolved)
  else
    let bytes := if b0 = OA_CODE_FULL_INDEX1 then 1
      else if b0 = OA_CODE_FULL_INDEX2 then 2 else 0
    (SID_SIZE + bytes, out ++ inb.take SID_SIZE, .resolved)

/-- A prefix lookup whose input still starts with an opcode byte below 0x10
cannot match a cache whose entries start with 0x00 or a byte ≥ 0x10. -/
theorem cache_lookup_opcode_mismatch (cache : OverlayAddressCache)
    (inb out : List Nat) (p bytes : Nat) (hp : 1 ≤ p)
    (hb0 : 1 ≤ inb.getD 0 0) (hb0' : inb.getD 0 0 < 0x10)
    (hcache : ∀ e ∈ cache.sids, e.getD 0 0 = 0 ∨ 0x10 ≤ e.getD 0 0) :
    overlay_abbreviate_cache_lookup cache inb out p bytes = (out, .pleaseexplain) := by
  unfold overlay_abbreviate_cache_lookup
  rw [if_pos]
  obtain ⟨i0, it, hinb⟩ : ∃ i0 it, inb = i0 :: it := by
    cases inb with
    | nil => simp at hb0
    | cons i0 it => exact ⟨i0, it, rfl⟩
  have hi0 : i0 = inb.getD 0 0 := by rw [hinb]; rfl
  cases hst : cache.sids.getD (cache_lookup_index inb cache.shift) [] with
  | nil =>
    rw [hinb]
    obtain ⟨p', rfl⟩ : ∃ p', p = p' + 1 := ⟨p - 1, by omega⟩
    simp
  | cons s0 st =>
    have hs0 : s0 = 0 ∨ 0x10 ≤ s0 := by
      by_cases hi : cache_lookup_index inb cache.shift < cache.sids.length
      · have hmem : cache.sids.getD (cache_lookup_index inb cache.shift) [] ∈ cache.sids := by
          rw [List.getD_eq_getElem?_getD, List.getElem?_eq_getElem hi]
          exact List.getElem_mem hi
        rw [hst] at hmem
        have := hcache _ hmem
        simpa using this
      · rw [List.getD_eq_getElem?_getD, List.getElem?_eq_none (by omega)] at hst
        simp at hst
    rw [hinb]
    obtain ⟨p', rfl⟩ : ∃ p', p = p' + 1 := ⟨p - 1, by omega⟩
    simp only [List.take_succ_cons, ne_eq, List.cons.injEq, not_and]
    intro heq
    rw [← hi0] at hb0 hb0'
    omega

/-- C9: for every input frame whose first byte is one of the prefix opcodes
0x05, 0x06, 0x07, 0x09, 0x0A, 0x0B, 0x0D and every cache whose entries each
start with byte 0x00 (empty slot) or a byte ≥ 0x10 (a stored SID),
`overlay_abbreviate_expand_address` returns OA_PLEASEEXPLAIN and leaves the
output untouched: the cache lookup is handed the input still positioned at
the opcode byte, so the prefix comparison pits the opcode (below 0x10)
against the cached entry's first byte and cannot succeed. -/
theorem claim9_prefix_never_resolves (cache : OverlayAddressCache)
    (prev inb out : List Nat)
    (hop : inb.getD 0 0 = 0x05 ∨ inb.getD 0 0 = 0x06 ∨ inb.getD 0 0 = 0x07 ∨
      inb.getD 0 0 = 0x09 ∨ inb.getD 0 0 = 0x0a ∨ inb.getD 0 0 = 0x0b ∨
      inb.getD 0 0 = 0x0d)
    (hcache : ∀ e ∈ cache.sids, e.getD 0 0 = 0 ∨ 0x10 ≤ e.getD 0 0) :
    (overlay_abbreviate_expand_address cache prev inb out).2.2 = .pleaseexplain ∧
    (overlay_abbreviate_expand_address cache prev inb out).2.1 = out := by
  have hb0 : 1 ≤ inb.getD 0 0 := by omega
  have hb0' : inb.getD 0 0 < 0x10 := by omega
  have hlk3 := cache_lookup_opcode_mismatch cache inb out 3 0 (by omega) hb0 hb0' hcache
  have hlk3' := cache_lookup_opcode_mismatch cache inb out 3 1 (by omega) hb0 hb0' hcache
  have hlk7 := cache_lookup_opcode_mismatch cache inb out 7 0 (by omega) hb0 hb0' hcache
  have hlk7' := cache_lookup_opcode_mismatch cache inb out 7 1 (by omega) hb0 hb0' hcache
  have hlk11 := cache_lookup_opcode_mismatch cache inb out 11 0 (by omega) hb0 hb0' hcache
  have hlk11' := cache_lookup_opcode_mismatch cache inb out 11 1 (by omega) hb0 hb0' hcache
  have hlk11'' := cache_lookup_opcode_mismatch cache inb out 11 2 (by omega) hb0 hb0' hcache
  simp only [List.getD_eq_getElem?_getD] at hop
  rcases hop with h | h | h | h | h | h | h <;>
    simp [overlay_abbreviate_expand_address, h, OA_CODE_00, OA_CODE_02, OA_CODE_04,
      OA_CODE_0C, OA_CODE_INDEX, OA_CODE_PREVIOUS, OA_CODE_PREFIX3,
      OA_CODE_PREFIX3_INDEX1, OA_CODE_PREFIX7, OA_CODE_PREFIX7_INDEX1,
      OA_CODE_PREFIX11, OA_CODE_PREFIX11_INDEX1, OA_CODE_PREFIX11_INDEX2,
      hlk3, hlk3', hlk7, hlk7', hlk11, hlk11', hlk11'']

/-- Witness for C9: a concrete 3-byte-prefix frame against a one-slot cache
holding a stored SID starting with 0x20. -/
theorem claim9_witness :
    (overlay_abbreviate_expand_address ⟨0, [List.replicate 32 0x20]⟩ []
      [0x05, 0xaa, 0xbb] []).2.2 = .pleaseexplain ∧
    (overlay_abbreviate_expand_address ⟨0, [List.replicate 32 0x20]⟩ []
      [0x05, 0xaa, 0xbb] []).2.1 = [] :=
  claim9_prefix_never_resolves ⟨0, [List.replicate 32 0x20]⟩ [] [0x05, 0xaa, 0xbb] []
    (by decide) (by decide)

/-- C10: the slot index of the cache-store path and of the cache-lookup path
reads only bytes 0 and 2 of its input (byte 0 feeds both the 16-bit and the
8-bit shifted component; byte 1 is never read), so two inputs agreeing on
bytes 0 and 2 but differing at byte 1 land in the same slot, in both
operations. -/
theorem claim10_slot_index_ignores_byte1 (a b : List Nat) (shift : Nat)
    (h0 : a.getD 0 0 = b.getD 0 0) (h2 : a.getD 2 0 = b.getD 2 0)
    (h1 : a.getD 1 0 ≠ b.getD 1 0) :
    cache_address_index a shift = cache_address_index b shift ∧
    cache_lookup_index a shift = cache_lookup_index b shift ∧
    cache_address_index a shift = cache_lookup_index b shift := by
  unfold cache_address_index cache_lookup_index
  rw [h0, h2]
  exact ⟨rfl, rfl, rfl⟩

/-- Witness for C10: inputs 01 02 03 and 01 09 03 with shift 8. -/
theorem claim10_witness :
    cache_address_index [1, 2, 3] 8 = cache_address_index [1, 9, 3] 8 ∧
    cache_lookup_index [1, 2, 3] 8 = cache_lookup_index [1, 9, 3] 8 ∧
    cache_address_index [1, 2, 3] 8 = cache_lookup_index [1, 9, 3] 8 :=
  claim10_slot_index_ignores_byte1 [1, 2, 3] [1, 9, 3] 8 (by decide) (by decide) (by decide)

end Abbrev

end Serval
